import Mathlib

/-!
Shallow embedding of the `dynamo` compiler front end (bpowers/dynamo,
package `dynamo`: the scanner in `lex.go` and the parser / timespec
semantic pass appended to it).

Modelling conventions, chosen once and used throughout:

* Source text is a `List Char` (one entry per rune).  Go tracks byte
  offsets; every program considered here is ASCII, where byte offsets and
  rune offsets coincide, so positions are rune indices.  `token.Pos`
  values are modelled as the raw offset (the `token.File` base is an
  affine shift that no claim depends on).
* Go's `float64` values that flow through `constEval` / `Timespec` are
  modelled as exact fractions (`Frac`): every literal in the sources is a
  short decimal, and no claim depends on binary rounding.
* The scanner's channel of tokens becomes an accumulated `List Token`;
  scanning stops once the first `itemEOF` token is emitted, which is
  exactly the prefix of the stream the parser ever consumes (after an
  EOF the Go scanner keeps re-emitting EOF tokens; the cursor below
  replays that by yielding a zero-valued EOF token past the end).
* The mutually-referential `stateFn` values become an explicit `Mode`
  with a step function, and unbounded loops take fuel; exhausted fuel
  (`none`) models the nontermination the Go code exhibits on some
  EOF-adjacent inputs (e.g. an identifier running into end-of-input).
* `dynLex.errorf` logs through the `log` package and emits an EOF token;
  the log side effect is modelled by the `fatal` flag.  It does NOT touch
  the parser's error buffer or error count.
* The AST node types (`File`, `ModelDecl`, `BlockStmt`, `AssignStmt`,
  `VarDecl`, `Ident`, `BasicLit`, `CompositeLit`, `KeyValueExpr`,
  `TableFwdExpr`), the token cursor's `Peek`, and `constEval` are used by
  the sources but defined elsewhere in the repository; they are modelled
  from the spec where marked below.
-/

namespace Dynamo

/-- Token kinds, mirroring the `itemType` constants of `lex.go`.  The Go
zero value of `itemType` is `itemEOF`. -/
inductive ItemType where
  | eof
  | identifier
  | number
  | semi
  | operator
  | kindDecl
  | keyword
  | literal
  | lbracket
  | rbracket
  | lparen
  | rparen
  | lsquare
  | rsquare
deriving DecidableEq, Repr

/-- A scanned token: recorded position, raw text slice, kind
(`Token` in `lex.go`).  `pos` is what `emit` records: `l.f.Pos(l.pos)`,
i.e. the offset at the moment of emission, which is one past the last
rune of the token. -/
structure Token where
  pos : Nat
  val : List Char
  kind : ItemType
deriving DecidableEq, Repr

/-- The zero value of `Token` (`Token{}` in Go): position 0, empty text,
`itemEOF` kind. -/
def zeroToken : Token := ⟨0, [], .eof⟩

/-- Scanner state (`dynLex` in `lex.go`).  `items` accumulates the tokens
sent on the channel, `fatal` records that `errorf` fired (its message goes
to the process log, not to the parser diagnostics). -/
structure DynLex where
  s : List Char
  pos : Nat
  start : Nat
  width : Nat
  last : Token
  semi : Bool
  fatal : Bool
  items : List Token
deriving DecidableEq, Repr

/-- The rune `next` returns at end of input (`eof = 0` in `lex.go`). -/
def eofRune : Char := Char.ofNat 0

/-- Go slice `s[a:b]` on the input, truncating out-of-range indices
(in-range uses coincide with Go; the scanner never slices out of range
on the runs analysed here). -/
def sliceG (s : List Char) (a b : Nat) : List Char := (s.take b).drop a

/-- `dynLex.next`: return the rune at `pos` and advance, recording its
width; at end of input return the zero rune and leave the state (width
included) untouched, exactly as the Go code does. -/
def DynLex.next (l : DynLex) : Char × DynLex :=
  if h : l.pos < l.s.length then
    (l.s.get ⟨l.pos, h⟩, { l with pos := l.pos + 1, width := 1 })
  else
    (eofRune, l)

/-- `dynLex.backup`: step back by the width of the last successfully read
rune.  After a `next` that hit end of input the width is stale, and Go
moves `pos` back anyway; `Nat` subtraction truncates at zero where Go
would go negative (never reached on the runs analysed here). -/
def DynLex.backup (l : DynLex) : DynLex := { l with pos := l.pos - l.width }

/-- `dynLex.peek`: `next` followed by `backup`. -/
def DynLex.peek (l : DynLex) : Char × DynLex :=
  let (r, l1) := l.next
  (r, l1.backup)

/-- `dynLex.ignore`: drop the pending text. -/
def DynLex.ignore (l : DynLex) : DynLex := { l with start := l.pos }

/-- `dynLex.accept`: consume the next rune if it is in `valid`. -/
def DynLex.accept (valid : List Char) (l : DynLex) : Bool × DynLex :=
  let (r, l1) := l.next
  if r ∈ valid then (true, l1) else (false, l1.backup)

/-- One unfolding of the `dynLex.acceptRun` loop, with fuel for
termination (the loop leaves the loop at end of input because the zero
rune is never in `valid`; the fuel-0 branch is unreachable at the fuel
`acceptRun` supplies). -/
def acceptRunGo (valid : List Char) : Nat → DynLex → DynLex
  | 0, l => l
  | fuel + 1, l =>
    let (r, l1) := l.next
    if r ∈ valid then acceptRunGo valid fuel l1 else l1.backup

/-- `dynLex.acceptRun`: consume a run of runes from `valid`. -/
def DynLex.acceptRun (valid : List Char) (l : DynLex) : DynLex :=
  acceptRunGo valid (l.s.length + 2) l

/-- Which token kinds arm automatic terminator insertion, from the
`switch` at the bottom of `dynLex.emit`: closing brackets, identifiers,
numbers, kind declarations and quoted literals set `l.semi`; every other
kind clears it. -/
def semiAfter : ItemType → Bool
  | .rbracket => true
  | .rparen => true
  | .rsquare => true
  | .identifier => true
  | .number => true
  | .kindDecl => true
  | .literal => true
  | _ => false

/-- `dynLex.emit`: record the token `⟨f.Pos(pos), s[start:pos], ty⟩`,
remember it as `last`, send it, reset `start`, and update the `semi`
flag. -/
def DynLex.emit (ty : ItemType) (l : DynLex) : DynLex :=
  let t : Token := ⟨l.pos, sliceG l.s l.start l.pos, ty⟩
  { l with
    last := t
    items := l.items ++ [t]
    start := l.pos
    semi := semiAfter ty }

/-- `dynLex.errorf`: log the diagnostic (modelled by `fatal := true`) and
emit a final EOF token; the scan ends. -/
def DynLex.errorf (l : DynLex) : DynLex :=
  DynLex.emit .eof { l with fatal := true }

/-- `isLiteralStart` from `lex.go`. -/
def isLiteralStart (r : Char) : Bool := r = '"'

/-- the operator set of `isOperator` in `lex.go`. -/
def operatorChars : List Char := [',', '+', '-', '*', '/', '|', '&', '=', '(', ')', '{', '}', '[', ']', ':']

/-- `isOperator` from `lex.go`. -/
def isOperator (r : Char) : Bool := r ∈ operatorChars

/-- `unicode.IsSpace` restricted to the ASCII range, which is all the
scanner meets here. -/
def isSpace (r : Char) : Bool :=
  r = ' ' ∨ r = '\t' ∨ r = '\n' ∨ r = Char.ofNat 11 ∨ r = Char.ofNat 12 ∨ r = Char.ofNat 13

/-- `isIdentifierStart` from `lex.go`. -/
def isIdentifierStart (r : Char) : Bool := ¬ (r.isDigit ∨ isSpace r ∨ isOperator r)

/-- `isAlphaNumeric` from `lex.go`: everything except whitespace,
operator characters and the terminator continues an identifier (note the
zero rune qualifies, which is why an identifier running into end of
input loops forever in the Go code). -/
def isAlphaNumeric (r : Char) : Bool := ¬ (isSpace r ∨ isOperator r ∨ r = ';')

/-- The six spellings reclassified from identifier to keyword. -/
def keywordSpellings : List (List Char) :=
  ["kind".data, "import".data, "package".data, "model".data, "interface".data, "specializes".data]

/-- Defunctionalised scanner states (the `stateFn` values of `lex.go`). -/
inductive Mode where
  | begin
  | statement
  | operator
  | comment
  | multiComment
  | lexType
  | number
  | literal
  | identifier
deriving DecidableEq, Repr

/-- Result of one scanner state: continue in another state, or stop
(an EOF token has been emitted). -/
inductive StepRes where
  | cont (m : Mode) (l : DynLex)
  | stop (l : DynLex)
deriving DecidableEq, Repr

/-- Shared shape of the scanner's inner loops (`comment`, `lexType`,
`literal`, `identifier`): read runes until `stop` holds for one, leaving
it consumed, with fuel; `none` models a loop that never exits (the
identifier loop at end of input). -/
def runUntil (stop : Char → Bool) : Nat → DynLex → Option DynLex
  | 0, _ => none
  | fuel + 1, l =>
    let (r, l1) := l.next
    if stop r then some l1 else runUntil stop fuel l1

/-- The `multiComment` skip loop: consume until `*/` or end of input. -/
def multiSkip : Nat → DynLex → Option DynLex
  | 0, _ => none
  | fuel + 1, l =>
    let (r, l1) := l.next
    if r = eofRune then some l1.backup
    else if r ≠ '*' then multiSkip fuel l1
    else
      let (p, l2) := l1.peek
      if p = '/' then some (l2.next).2 else multiSkip fuel l2

/-- digit set used by the `number` state. -/
def digitChars : List Char := ['0', '1', '2', '3', '4', '5', '6', '7', '8', '9']

/-- One scanner state transition, transcribing the corresponding
`stateFn` of `lex.go` case by case. -/
def step : Mode → DynLex → Option StepRes
  | .begin, l =>
    let (r, l1) := l.next
    if r = '*' then some (.cont .comment l1)
    else some (.stop l1.errorf)
  | .statement, l =>
    let (r, l1) := l.next
    if r = eofRune then
      some (.stop (DynLex.emit .eof (if l1.semi then DynLex.emit .semi l1 else l1)))
    else if r = '/' then
      let (p, l2) := l1.peek
      if p = '/' then some (.cont .comment (l2.next).2)
      else if p = '*' then some (.cont .multiComment (l2.next).2)
      else some (.cont .statement (DynLex.emit .operator l2))
    else if r = '`' then some (.cont .lexType l1)
    else if r = ';' then some (.cont .statement (DynLex.emit .semi l1))
    else if isSpace r then
      some (.cont .statement
        (DynLex.ignore (if r = '\n' ∧ l1.semi then DynLex.emit .semi l1 else l1)))
    else if r.isDigit ∨ r = '.' then some (.cont .number l1.backup)
    else if isLiteralStart r then some (.cont .literal l1.backup)
    else if isIdentifierStart r then some (.cont .identifier l1.backup)
    else if isOperator r then some (.cont .operator l1.backup)
    else some (.stop l1.errorf)
  | .operator, l =>
    let (r, l1) := l.next
    let ty : ItemType :=
      if r = '{' then .lbracket
      else if r = '}' then .rbracket
      else if r = '(' then .lparen
      else if r = ')' then .rparen
      else if r = '[' then .lsquare
      else if r = ']' then .rsquare
      else .operator
    some (.cont .statement (DynLex.emit ty l1))
  | .comment, l =>
    match runUntil (fun r => r = '\n' ∨ r = eofRune) (l.s.length + 2) l with
    | none => none
    | some l1 => some (.cont .statement l1.backup.ignore)
  | .multiComment, l =>
    match multiSkip (l.s.length + 2) l with
    | none => none
    | some l1 => some (.cont .statement l1.ignore)
  | .lexType, l =>
    let l0 := l.ignore
    match runUntil (fun r => r = '`' ∨ r = eofRune) (l.s.length + 2) l0 with
    | none => none
    | some l1 =>
      let l2 := l1.backup
      let (p, l3) := l2.peek
      if p ≠ '`' then some (.stop l3.errorf)
      else some (.cont .statement ((DynLex.emit .kindDecl l3).next).2.ignore)
  | .number, l =>
    let l1 := l.acceptRun digitChars
    let l2 := (l1.accept ['.']).2
    let l3 := l2.acceptRun digitChars
    let acc := l3.accept ['e', 'E']
    let l5 := if acc.1 then (((acc.2).accept ['+', '-']).2).acceptRun digitChars else acc.2
    some (.cont .statement (DynLex.emit .number l5))
  | .literal, l =>
    let (delim, l1) := l.next
    let l2 := l1.ignore
    match runUntil (fun r => r = delim ∨ r = eofRune) (l.s.length + 2) l2 with
    | none => none
    | some l3 =>
      let l4 := l3.backup
      let (p, l5) := l4.peek
      if p ≠ delim then some (.stop l5.errorf)
      else some (.cont .statement ((DynLex.emit .literal l5).next).2.ignore)
  | .identifier, l =>
    match runUntil (fun r => ¬ isAlphaNumeric r) (l.s.length + 2) l with
    | none => none
    | some l1 =>
      let l2 := l1.backup
      let idv := sliceG l2.s l2.start l2.pos
      let k : ItemType := if idv ∈ keywordSpellings then .keyword else .identifier
      some (.cont .statement (DynLex.emit k l2))

/-- Drive the scanner until it stops (first EOF token emitted) or fuel
runs out. -/
def runScan : Nat → Mode → DynLex → Option DynLex
  | 0, _, _ => none
  | fuel + 1, m, l =>
    match step m l with
    | none => none
    | some (.stop l1) => some l1
    | some (.cont m1 l1) => runScan fuel m1 l1

/-- Fresh scanner state over an input (`newLex`). -/
def initLex (input : List Char) : DynLex :=
  ⟨input, 0, 0, 0, zeroToken, false, false, []⟩

/-- Scan an input to its token stream (up to and including the first EOF
token) together with the fatal-error flag; `none` models a scan that
never terminates. -/
def scanTokens (input : List Char) : Option (List Token × Bool) :=
  match runScan (4 * input.length + 16) .begin (initLex input) with
  | none => none
  | some l => some (l.items, l.fatal)

/-- Modelled from the spec: the Identifier node — "{ optional source
position, name, optional resolved-declaration back-reference (unset
until/unless a later pass resolves bindings; the current pass never sets
it) }".  The never-set back-reference is omitted.  `Ident{Name: n}` gives
position 0 (`token.NoPos`). -/
structure Ident where
  pos : Nat
  name : List Char
deriving DecidableEq, Repr

/-- literal kinds: the front end only ever builds `token.FLOAT`. -/
inductive LitKind where
  | float
deriving DecidableEq, Repr

/-- Modelled from the spec: the Expression variant — "literal (kind + raw
textual value), composite literal (ordered key→expression pairs), forward
table literal (ordered sequence of numeric literals), identifier
reference".  `nil` is the Go interface zero value, which the parser can
store as a right-hand side (see `stmtInto`); the parser never builds
`identRef`, it is listed for completeness of the spec data model. -/
inductive Expr where
  | basicLit (pos : Nat) (kind : LitKind) (value : List Char)
  | compositeLit (elts : List (Ident × Expr))
  | tableFwd (ys : List Expr)
  | identRef (i : Ident)
  | nil

/-- Modelled from the spec: the variable declaration — "{ identifier
name, semantic role }".  The parser fills both; the synthesized timespec
declaration leaves the role pointer nil (`none`). -/
structure VarDecl where
  name : Ident
  type : Option Ident
deriving DecidableEq, Repr

/-- an assignment statement (`AssignStmt`): left-hand declaration and
right-hand expression. -/
structure AssignStmt where
  lhs : VarDecl
  rhs : Expr

/-- Modelled from the spec: the Statement variant — "a variant over
{ variable assignment }.  (Only assignment statements are produced by the
current grammar.)"  The single constructor mirrors the Go type switch
`stmt.(*AssignStmt)`. -/
inductive Stmt where
  | assign (a : AssignStmt)

/-- a model declaration: name and body statement list
(`ModelDecl` / `BlockStmt`). -/
structure ModelDecl where
  name : Ident
  body : List Stmt

/-- Modelled from the spec: the Program node — "{ name, ordered sequence
of top-level declarations }". -/
structure File where
  name : Ident
  decls : List ModelDecl

/-- `ident(tok)`: identifier node taken from a token. -/
def identOf (tok : Token) : Ident := ⟨tok.pos, tok.val⟩

/-- `id(n)`: identifier node with only the name set. -/
def idI (n : List Char) : Ident := ⟨0, n⟩

/-- exact fraction standing in for Go `float64` (every value the front
end computes is a short decimal, exactly representable; `den` is kept
positive by construction). -/
structure Frac where
  num : Int
  den : Int
deriving DecidableEq, Repr

/-- the zero value (`float64` zero / default Start and End). -/
def Frac.zero : Frac := ⟨0, 1⟩

/-- the unit value (default DT and SaveStep). -/
def Frac.one : Frac := ⟨1, 1⟩

/-- decimal digits to a natural number. -/
def digitsToNat (ds : List Char) : Nat :=
  ds.foldl (fun acc c => 10 * acc + (c.toNat - '0'.toNat)) 0

/-- Modelled from the spec: parsing a number literal's text "as a
floating-point number" (Go `strconv.ParseFloat` on the shapes the scanner
can produce: optional digits, optional fraction, optional signed
exponent; at least one digit of mantissa is required, so the degenerate
token `.` is rejected). -/
def parseFloat (s : List Char) : Option Frac :=
  let ip := s.takeWhile Char.isDigit
  let r1 := s.dropWhile Char.isDigit
  let fp := match r1 with
    | '.' :: t => t.takeWhile Char.isDigit
    | _ => []
  let r2 := match r1 with
    | '.' :: t => t.dropWhile Char.isDigit
    | _ => r1
  if ip.isEmpty ∧ fp.isEmpty then none
  else
    let mant : Int := Int.ofNat (digitsToNat ip * 10 ^ fp.length + digitsToNat fp)
    let den0 : Int := Int.ofNat (10 ^ fp.length)
    match r2 with
    | [] => some ⟨mant, den0⟩
    | e :: t =>
      if e = 'e' ∨ e = 'E' then
        let neg : Bool := match t with
          | '-' :: _ => true
          | _ => false
        let t2 := match t with
          | '+' :: u => u
          | '-' :: u => u
          | u => u
        let ed := t2.takeWhile Char.isDigit
        let t3 := t2.dropWhile Char.isDigit
        if ed.isEmpty ∨ ¬ t3.isEmpty then none
        else
          let ex := digitsToNat ed
          some (if neg then ⟨mant, den0 * 10 ^ ex⟩ else ⟨mant * 10 ^ ex, den0⟩)
      else none

/-- Modelled from the spec: `constEval`, "a pure function over the
expression tree; for the literal-only grammar in §4.2 this reduces to
parsing the literal's text as a floating-point number", failing on
anything else.  Referenced from `extractTimespec` but defined outside the
provided sources. -/
def constEval : Expr → Except (List Char) Frac
  | .basicLit _ _ v =>
    match parseFloat v with
    | some q => .ok q
    | none => .error ("invalid float literal ".data ++ v)
  | _ => .error "not a constant expression".data

/-- decimal rendering of a natural number. -/
def natDec (n : Nat) : List Char := Nat.toDigits 10 n

/-- six-digit zero-padded decimal rendering. -/
def pad6 (n : Nat) : List Char :=
  let d := natDec n
  List.replicate (6 - d.length) '0' ++ d

/-- `fmt.Sprintf("%f", f)`: fixed six decimal places, rounding the value
to the nearest multiple of 10⁻⁶ (half away from zero). -/
def formatF (q : Frac) : List Char :=
  let m : Int := if q.num < 0 then -q.num else q.num
  let scaled : Int := (2 * m * 1000000 + q.den) / (2 * q.den)
  let n : Nat := scaled.toNat
  (if q.num < 0 then ['-'] else []) ++ natDec (n / 1000000) ++ ['.'] ++ pad6 (n % 1000000)

/-- `floatLitS(t)`: float literal node carrying a token's text. -/
def floatLitS (t : Token) : Expr := .basicLit t.pos .float t.val

/-- `floatLit(f)`: float literal node rendering a computed value
(`&BasicLit{Kind: token.FLOAT, Value: fmt.Sprintf("%f", f)}`, position
left at the zero value). -/
def floatLit (q : Frac) : Expr := .basicLit 0 .float (formatF q)

/-- `runtime.Timespec`: start, end, step and save interval. -/
structure Timespec where
  start : Frac
  end_ : Frac
  dt : Frac
  saveStep : Frac
deriving DecidableEq, Repr

/-- the `Timespec` literal built at the top of `extractTimespec`:
`DT: 1, SaveStep: 1`, zero values elsewhere. -/
def initialSpec : Timespec := ⟨Frac.zero, Frac.zero, Frac.one, Frac.one⟩

/-- `strings.ToUpper` on the ASCII names in play. -/
def upperS (s : List Char) : List Char := s.map Char.toUpper

/-- the four reserved control-assignment names. -/
def reservedNames : List (List Char) :=
  ["TIME".data, "LENGTH".data, "SAVPER".data, "DT".data]

/-- name of the statement's target. -/
def stmtName : Stmt → List Char
  | .assign a => a.lhs.name.name

/-- right-hand side of the statement. -/
def stmtRhs : Stmt → Expr
  | .assign a => a.rhs

/-- the error text `constEval(<name>): <err>` produced when evaluating a
reserved assignment fails. -/
def constEvalMsg (nm e : List Char) : List Char :=
  "constEval(".data ++ nm ++ "): ".data ++ e

/-- The first loop of `extractTimespec`: walk the assignment statements,
constant-evaluating each reserved control assignment into the matching
`Timespec` field (a later assignment to the same name overwrites an
earlier one); the first evaluation failure aborts the pass with an error
naming the variable. -/
def evalSpec : List Stmt → Timespec → Except (List Char) Timespec
  | [], sp => .ok sp
  | .assign a :: rest, sp =>
    let nm := upperS a.lhs.name.name
    if nm = "TIME".data then
      match constEval a.rhs with
      | .ok v => evalSpec rest { sp with start := v }
      | .error e => .error (constEvalMsg a.lhs.name.name e)
    else if nm = "LENGTH".data then
      match constEval a.rhs with
      | .ok v => evalSpec rest { sp with end_ := v }
      | .error e => .error (constEvalMsg a.lhs.name.name e)
    else if nm = "SAVPER".data then
      match constEval a.rhs with
      | .ok v => evalSpec rest { sp with saveStep := v }
      | .error e => .error (constEvalMsg a.lhs.name.name e)
    else if nm = "DT".data then
      match constEval a.rhs with
      | .ok v => evalSpec rest { sp with dt := v }
      | .error e => .error (constEvalMsg a.lhs.name.name e)
    else evalSpec rest sp

/-- test used by the removal loop of `extractTimespec`: keep a statement
unless its upper-cased target is one of the four reserved names. -/
def keepStmt (s : Stmt) : Bool := ¬ upperS (stmtName s) ∈ reservedNames

/-- the synthesized `timespec` assignment: name-only left side, composite
right side with the four key/value entries in source order. -/
def tsStmt (sp : Timespec) : Stmt :=
  .assign ⟨⟨idI "timespec".data, none⟩,
    .compositeLit
      [(idI "start".data, floatLit sp.start),
       (idI "end".data, floatLit sp.end_),
       (idI "dt".data, floatLit sp.dt),
       (idI "save_step".data, floatLit sp.saveStep)]⟩

/-- `extractTimespec`: fold the reserved assignments into a `Timespec`
(defaults `DT = 1`, `SaveStep = 1`, zero start and end), and on success
remove every reserved assignment from the body (the Go index-splice loop
with `i--` is an order-preserving filter) and append the synthesized
`timespec` assignment; an evaluation failure returns before any mutation
of the body. -/
def extractTimespec (body : List Stmt) : Except (List Char) (List Stmt) :=
  match evalSpec body initialSpec with
  | .error e => .error e
  | .ok sp => .ok (body.filter keepStmt ++ [tsStmt sp])

/-- Parser state (`dynParser`): the token stream with a cursor, the error
count and the diagnostic buffer (kept as the list of message lines; the
`position: ` rendering of `fset.Position` is not modelled). -/
structure DynParser where
  toks : List Token
  idx : Nat
  nerr : Nat
  errs : List (List Char)
deriving DecidableEq, Repr

/-- Modelled from the spec: the token cursor's `Peek` — "peek next token
without consuming".  Past the produced stream it yields the zero-valued
EOF token the idling Go scanner would keep emitting. -/
def DynParser.peekT (p : DynParser) : Token := p.toks.getD p.idx zeroToken

/-- consume one token (`p.lex.Token()`). -/
def DynParser.nextT (p : DynParser) : Token × DynParser :=
  (p.peekT, { p with idx := p.idx + 1 })

/-- `dynParser.errorf`: append a diagnostic line and bump the error
count. -/
def DynParser.errorf (p : DynParser) (msg : List Char) : DynParser :=
  { p with nerr := p.nerr + 1, errs := p.errs ++ [msg] }

/-- `typeIdent`: map the (already upper-cased) one-letter type tag to the
role identifier recorded on the declaration.  The Go default branch
panics; it is unreachable from `stmtInto`, whose switch vets the tag
first. -/
def typeIdent (typeTok : Token) : Ident :=
  let n : List Char :=
    if typeTok.val = ['L'] then "stock".data
    else if typeTok.val = ['N'] then "initial".data
    else if typeTok.val = ['C'] then "const".data
    else if typeTok.val = ['R'] then "flow".data
    else if typeTok.val = ['A'] then "aux".data
    else if typeTok.val = ['T'] then "table".data
    else "unknown type".data
  ⟨typeTok.pos, n⟩

/-- `dynParser.varDecl`: the variable name must be an identifier token;
on success record name and role. -/
def DynParser.varDecl (p : DynParser) (typeTok : Token) : Option VarDecl × DynParser :=
  let (nameTok, p1) := p.nextT
  if nameTok.kind ≠ .identifier then
    (none, p1.errorf ("expected ident, not ".data ++ typeTok.val))
  else
    (some ⟨identOf nameTok, some (typeIdent typeTok)⟩, p1)

/-- `dynParser.consumeEqual`: the next token must spell `=`. -/
def DynParser.consumeEqual (p : DynParser) : Bool × DynParser :=
  let (tok, p1) := p.nextT
  if tok.val ≠ ['='] then
    (false, p1.errorf ("expected =, not ".data ++ tok.val))
  else (true, p1)

/-- `dynParser.expr`: the right-hand side grammar is a single number
token; on anything else it prints `expr` to standard output and reports
failure WITHOUT recording a diagnostic (no `errorf`). -/
def DynParser.expr (p : DynParser) : Option Expr × DynParser :=
  let (tok, p1) := p.nextT
  if tok.kind = .number then
    (some (.basicLit tok.pos .float tok.val), p1)
  else (none, p1)

/-- The `dynParser.tableDef` loop with fuel (each pass consumes tokens,
and past the stream every token is EOF, so the fuel below is never
exhausted).  Transcribed faithfully, INCLUDING its inverted ok flag: the
error paths return `(nil, true)` and the success path returns
`(table, false)`. -/
def tableDefGo : Nat → List Expr → DynParser → Option Expr × Bool × DynParser
  | 0, _, p => (none, true, p)
  | fuel + 1, ys, p =>
    let (tok, p1) := p.nextT
    if tok.kind ≠ .number then
      (none, true, p1.errorf ("expected float literal in table def, not ".data ++ tok.val))
    else
      let ys1 := ys ++ [floatLitS tok]
      let (tok2, p2) := p1.nextT
      if tok2.val = ['/'] then tableDefGo fuel ys1 p2
      else if tok2.kind = .semi ∨ tok2.kind = .eof then (some (.tableFwd ys1), false, p2)
      else tableDefGo fuel ys1 (p2.errorf ("expected / in table def, not ".data ++ tok2.val))

/-- `dynParser.tableDef`: one or more slash-separated number tokens up to
a terminator or EOF. -/
def DynParser.tableDef (p : DynParser) : Option Expr × Bool × DynParser :=
  tableDefGo (p.toks.length + 2) [] p

/-- The `dynParser.discardStmt` loop with fuel: consume tokens up to and
including the next terminator or EOF token. -/
def discardGo : Nat → DynParser → DynParser
  | 0, p => p
  | fuel + 1, p =>
    let (tok, p1) := p.nextT
    if tok.kind = .eof ∨ tok.kind = .semi then p1 else discardGo fuel p1

/-- `dynParser.discardStmt`. -/
def DynParser.discardStmt (p : DynParser) : DynParser :=
  discardGo (p.toks.length + 2) p

/-- the Go interface value appended as a right-hand side: the table
branch of `stmtInto` stores whatever `tableDef` returned, which is nil on
the (inverted) error path. -/
def orNilExpr : Option Expr → Expr
  | some e => e
  | none => .nil

/-- `dynParser.stmtInto`: upper-case the leading type tag; for
`L/N/C/R/A` parse `name = number`, for `T` parse `name = tabledata`; on
any step's failure discard to the next terminator.  Statements are
appended to the model body (passed and returned here explicitly). -/
def DynParser.stmtInto (p : DynParser) (body : List Stmt) : List Stmt × DynParser :=
  let (typeTok, p1) := p.nextT
  let tokU : Token := { typeTok with val := upperS typeTok.val }
  if tokU.val ∈ [['L'], ['N'], ['C'], ['R'], ['A']] then
    match p1.varDecl tokU with
    | (none, p2) => (body, p2.discardStmt)
    | (some d, p2) =>
      match p2.consumeEqual with
      | (false, p3) => (body, p3.discardStmt)
      | (true, p3) =>
        match p3.expr with
        | (none, p4) => (body, p4.discardStmt)
        | (some e, p4) => (body ++ [.assign ⟨d, e⟩], p4)
  else if tokU.val = ['T'] then
    match p1.varDecl tokU with
    | (none, p2) => (body, p2.discardStmt)
    | (some d, p2) =>
      match p2.consumeEqual with
      | (false, p3) => (body, p3.discardStmt)
      | (true, p3) =>
        match p3.tableDef with
        | (e, ok, p4) =>
          if ¬ ok then (body, p4.discardStmt)
          else (body ++ [.assign ⟨d, orNilExpr e⟩], p4)
  else (body, p1.errorf ("unknown type: ".data ++ tokU.val))

/-- The statement loop of `dynParser.declModel` with fuel (every
iteration consumes at least one token and past the stream every token is
EOF, so the fuel below is never exhausted): stop at EOF, silently discard
terminators, hand single-character identifiers to `stmtInto`, and on any
other token report `expected 1 char ident` and discard that one token —
then KEEP LOOPING. -/
def declGo : Nat → List Stmt → DynParser → List Stmt × DynParser
  | 0, body, p => (body, p)
  | fuel + 1, body, p =>
    let tok := p.peekT
    match tok.kind with
    | .eof => (body, p)
    | .semi => declGo fuel body { p with idx := p.idx + 1 }
    | .identifier =>
      if tok.val.length = 1 then
        let (body1, p1) := p.stmtInto body
        declGo fuel body1 p1
      else
        declGo fuel body
          (DynParser.errorf { p with idx := p.idx + 1 }
            ("expected 1 char ident, not ".data ++ tok.val))
    | _ =>
      declGo fuel body
        (DynParser.errorf { p with idx := p.idx + 1 }
          ("expected 1 char ident, not ".data ++ tok.val))

/-- Tail of `dynParser.declModel`: for the model literally named `main`,
run `extractTimespec` over the parsed body; an error from the pass is
reported through `errorf` and leaves the body exactly as parsed. -/
def applyMainPass (n : Ident) (body : List Stmt) (p : DynParser) : ModelDecl × DynParser :=
  if n.name = "main".data then
    match extractTimespec body with
    | .error e => (⟨n, body⟩, p.errorf ("extractTimespec: ".data ++ e))
    | .ok body1 => (⟨n, body1⟩, p)
  else (⟨n, body⟩, p)

/-- `dynParser.declModel`: parse the statement list, then apply the
timespec pass for `main`. -/
def DynParser.declModel (p : DynParser) (n : Ident) : ModelDecl × DynParser :=
  let (body, p1) := declGo (p.toks.length + 2) [] p
  applyMainPass n body p1

/-- `dynParser.Parse`: one top-level model named `main`; returns the file
with the accumulated error count and diagnostics. -/
def parserParse (toks : List Token) : File × Nat × List (List Char) :=
  let p0 : DynParser := ⟨toks, 0, 0, []⟩
  let (m, p1) := p0.declModel (idI "main".data)
  (⟨idI "main".data, [m]⟩, p1.nerr, p1.errs)

/-- The public `Parse` entry point (`lex.go` line 477): scan, parse, and
fail with the aggregated diagnostics exactly when the parser's error
count is non-zero.  `none` models a scan that never terminates. -/
def Parse (input : List Char) : Option (Except (List (List Char)) File) :=
  match scanTokens input with
  | none => none
  | some (toks, _) =>
    let (f, nerr, errs) := parserParse toks
    some (if nerr ≠ 0 then .error errs else .ok f)

/-- scan-then-parse, exposing the parser state (file, error count,
diagnostics) even when the error count is non-zero. -/
def parseResultP (input : List Char) : File × Nat × List (List Char) :=
  match scanTokens input with
  | none => (⟨idI [], []⟩, 0, [])
  | some (toks, _) => parserParse toks

/-- body of the single parsed model of a file. -/
def fileMainBody (f : File) : List Stmt :=
  match f.decls with
  | [m] => m.body
  | _ => []

/-- body of the model in a successful `Parse` outcome (empty on failure
or nontermination). -/
def mainBody (r : Option (Except (List (List Char)) File)) : List Stmt :=
  match r with
  | some (.ok f) => fileMainBody f
  | _ => []

/-- does the statement assign (case-sensitively) to this name? -/
def namedAssign (nm : List Char) (s : Stmt) : Bool := stmtName s = nm

/-- does the statement case-insensitively assign to one of the four
reserved control names? -/
def isReservedAssign (s : Stmt) : Bool := upperS (stmtName s) ∈ reservedNames

/-- is the statement shaped like the synthesized timespec assignment:
named `timespec` with a composite-literal value?  (No parser-built
statement has a composite value.) -/
def isTimespecAssign (s : Stmt) : Bool :=
  decide (stmtName s = "timespec".data) &&
    match stmtRhs s with
    | .compositeLit _ => true
    | _ => false

/-- does the statement case-insensitively assign to exactly this
(upper-case) name? -/
def assignsUp (nm : List Char) (s : Stmt) : Bool := upperS (stmtName s) = nm

/-- relation between a body and the optional constant value it supplies
for one reserved name: `none` means the name is never assigned, `some v`
means it is assigned exactly once and the right-hand side
constant-evaluates to `v`. -/
def optAssigned (body : List Stmt) (nm : List Char) : Option Frac → Prop
  | none => body.filter (assignsUp nm) = []
  | some v => ∃ s, body.filter (assignsUp nm) = [s] ∧ constEval (stmtRhs s) = .ok v

/-- a constant declaration statement as the parser would build it
(used by concrete instantiations below). -/
def cStmt (nm v : List Char) : Stmt :=
  .assign ⟨⟨⟨0, nm⟩, some ⟨0, "const".data⟩⟩, .basicLit 0 .float v⟩

/-- the timespec example body of spec §8: `C TIME=0; C LENGTH=10;
C DT=0.5; C SAVPER=1; C POPN=100;`. -/
def bodyW : List Stmt :=
  [cStmt "TIME".data "0".data, cStmt "LENGTH".data "10".data,
   cStmt "DT".data "0.5".data, cStmt "SAVPER".data "1".data,
   cStmt "POPN".data "100".data]

/-- concrete programs exercised by the claims. -/
def progTable : List Char := "*\nT AHMT=2/2/1.6/1/.2/.005;\n".data

/-- program whose first statement is missing its right-hand side. -/
def progMissingRhs : List Char := "*\nC X = \nC Y=2;\n".data

/-- program whose first statement starts with a multi-character
identifier. -/
def progBadLeader : List Char := "*\nFOO\nC Y=2;\n".data

/-- tiny program used to inspect recorded token positions. -/
def progSmall : List Char := "*c\nAB\n".data

/-- token stream of `progTable` (its scan terminates). -/
def tableToks : List Token :=
  match scanTokens progTable with
  | some (toks, _) => toks
  | none => []

/-- a scanner state about to read a newline, with the terminator flag
armed by a just-emitted identifier. -/
def lexA : DynLex := ⟨['\n'], 0, 0, 0, ⟨3, ['A'], .identifier⟩, true, false, []⟩

/-- a scanner state at end of input with the terminator flag armed. -/
def lexB : DynLex :=
  ⟨['A', 'B'], 2, 2, 1, ⟨2, ['A', 'B'], .identifier⟩, true, false,
   [⟨2, ['A', 'B'], .identifier⟩]⟩

/-- the token's text is the slice of the input ENDING at its recorded
position (the scanner records the offset one past the token). -/
def tokSpan (s : List Char) (t : Token) : Prop :=
  t.val = sliceG s (t.pos - t.val.length) t.pos

/-- scanner-state invariant: the input never changes, the cursor stays
in bounds, and every emitted token satisfies `tokSpan`. -/
def LexOk (l0 l : DynLex) : Prop :=
  l.s = l0.s ∧ l.pos ≤ l.s.length ∧ ∀ t ∈ l.items, tokSpan l0.s t

theorem optAssigned_cons_skip (s : Stmt) (rest : List Stmt) (nm : List Char)
    (o : Option Frac) (h : assignsUp nm s = false) :
    optAssigned (s :: rest) nm o ↔ optAssigned rest nm o := by
  cases o <;> simp [optAssigned, List.filter_cons, h]

theorem assignsUp_of_name (a : AssignStmt) (nm : List Char)
    (h : upperS a.lhs.name.name = nm) : assignsUp nm (.assign a) = true := by
  simp [assignsUp, stmtName, h]

theorem assignsUp_ne (a : AssignStmt) (nm nm' : List Char)
    (h : upperS a.lhs.name.name = nm) (hne : nm ≠ nm') :
    assignsUp nm' (.assign a) = false := by
  simp [assignsUp, stmtName, h, hne]

theorem evalSpec_cons_skip (a : AssignStmt) (rest : List Stmt) (sp : Timespec)
    (h1 : upperS a.lhs.name.name ≠ "TIME".data)
    (h2 : upperS a.lhs.name.name ≠ "LENGTH".data)
    (h3 : upperS a.lhs.name.name ≠ "SAVPER".data)
    (h4 : upperS a.lhs.name.name ≠ "DT".data) :
    evalSpec (.assign a :: rest) sp = evalSpec rest sp := by
  simp only [evalSpec]
  rw [if_neg h1, if_neg h2, if_neg h3, if_neg h4]

theorem evalSpec_cons_time (a : AssignStmt) (rest : List Stmt) (sp : Timespec)
    (v : Frac) (h : upperS a.lhs.name.name = "TIME".data)
    (hev : constEval a.rhs = .ok v) :
    evalSpec (.assign a :: rest) sp = evalSpec rest { sp with start := v } := by
  simp only [evalSpec]
  rw [if_pos h, hev]

theorem evalSpec_cons_length (a : AssignStmt) (rest : List Stmt) (sp : Timespec)
    (v : Frac) (h : upperS a.lhs.name.name = "LENGTH".data)
    (hev : constEval a.rhs = .ok v) :
    evalSpec (.assign a :: rest) sp = evalSpec rest { sp with end_ := v } := by
  have hne : upperS a.lhs.name.name ≠ "TIME".data := by rw [h]; decide
  simp only [evalSpec]
  rw [if_neg hne, if_pos h, hev]

theorem evalSpec_cons_savper (a : AssignStmt) (rest : List Stmt) (sp : Timespec)
    (v : Frac) (h : upperS a.lhs.name.name = "SAVPER".data)
    (hev : constEval a.rhs = .ok v) :
    evalSpec (.assign a :: rest) sp = evalSpec rest { sp with saveStep := v } := by
  have hne1 : upperS a.lhs.name.name ≠ "TIME".data := by rw [h]; decide
  have hne2 : upperS a.lhs.name.name ≠ "LENGTH".data := by rw [h]; decide
  simp only [evalSpec]
  rw [if_neg hne1, if_neg hne2, if_pos h, hev]

theorem evalSpec_cons_dt (a : AssignStmt) (rest : List Stmt) (sp : Timespec)
    (v : Frac) (h : upperS a.lhs.name.name = "DT".data)
    (hev : constEval a.rhs = .ok v) :
    evalSpec (.assign a :: rest) sp = evalSpec rest { sp with dt := v } := by
  have hne1 : upperS a.lhs.name.name ≠ "TIME".data := by rw [h]; decide
  have hne2 : upperS a.lhs.name.name ≠ "LENGTH".data := by rw [h]; decide
  have hne3 : upperS a.lhs.name.name ≠ "SAVPER".data := by rw [h]; decide
  simp only [evalSpec]
  rw [if_neg hne1, if_neg hne2, if_neg hne3, if_pos h, hev]

theorem evalSpec_eval (body : List Stmt) :
    ∀ (sp : Timespec) (tv lv sv dv : Option Frac),
      optAssigned body "TIME".data tv →
      optAssigned body "LENGTH".data lv →
      optAssigned body "SAVPER".data sv →
      optAssigned body "DT".data dv →
      evalSpec body sp =
        .ok ⟨tv.getD sp.start, lv.getD sp.end_, dv.getD sp.dt, sv.getD sp.saveStep⟩ := by
  induction body with
  | nil =>
    intro sp tv lv sv dv hT hL hS hD
    cases tv with
    | some v => obtain ⟨s, hs, -⟩ := hT; simp [optAssigned] at hs
    | none =>
    cases lv with
    | some v => obtain ⟨s, hs, -⟩ := hL; simp [optAssigned] at hs
    | none =>
    cases sv with
    | some v => obtain ⟨s, hs, -⟩ := hS; simp [optAssigned] at hs
    | none =>
    cases dv with
    | some v => obtain ⟨s, hs, -⟩ := hD; simp [optAssigned] at hs
    | none => rfl
  | cons s rest ih =>
    intro sp tv lv sv dv hT hL hS hD
    obtain ⟨a⟩ := s
    by_cases h1 : upperS a.lhs.name.name = "TIME".data
    · have hpos := assignsUp_of_name a _ h1
      have hL1 := (optAssigned_cons_skip _ rest _ lv (assignsUp_ne a _ _ h1 (by decide))).mp hL
      have hS1 := (optAssigned_cons_skip _ rest _ sv (assignsUp_ne a _ _ h1 (by decide))).mp hS
      have hD1 := (optAssigned_cons_skip _ rest _ dv (assignsUp_ne a _ _ h1 (by decide))).mp hD
      cases tv with
      | none => simp [optAssigned, List.filter_cons, hpos] at hT
      | some v =>
        obtain ⟨s1, hfeq, hev⟩ := hT
        rw [List.filter_cons_of_pos hpos] at hfeq
        obtain ⟨hhead, htail⟩ := List.cons.inj hfeq
        have hev1 : constEval a.rhs = .ok v := by
          simpa [stmtRhs, ← hhead] using hev
        rw [evalSpec_cons_time a rest sp v h1 hev1,
          ih _ none lv sv dv htail hL1 hS1 hD1]
        rfl
    · by_cases h2 : upperS a.lhs.name.name = "LENGTH".data
      · have hpos := assignsUp_of_name a _ h2
        have hT1 := (optAssigned_cons_skip _ rest _ tv (assignsUp_ne a _ _ h2 (by decide))).mp hT
        have hS1 := (optAssigned_cons_skip _ rest _ sv (assignsUp_ne a _ _ h2 (by decide))).mp hS
        have hD1 := (optAssigned_cons_skip _ rest _ dv (assignsUp_ne a _ _ h2 (by decide))).mp hD
        cases lv with
        | none => simp [optAssigned, List.filter_cons, hpos] at hL
        | some v =>
          obtain ⟨s1, hfeq, hev⟩ := hL
          rw [List.filter_cons_of_pos hpos] at hfeq
          obtain ⟨hhead, htail⟩ := List.cons.inj hfeq
          have hev1 : constEval a.rhs = .ok v := by
            simpa [stmtRhs, ← hhead] using hev
          rw [evalSpec_cons_length a rest sp v h2 hev1,
            ih _ tv none sv dv hT1 htail hS1 hD1]
          rfl
      · by_cases h3 : upperS a.lhs.name.name = "SAVPER".data
        · have hpos := assignsUp_of_name a _ h3
          have hT1 := (optAssigned_cons_skip _ rest _ tv (assignsUp_ne a _ _ h3 (by decide))).mp hT
          have hL1 := (optAssigned_cons_skip _ rest _ lv (assignsUp_ne a _ _ h3 (by decide))).mp hL
          have hD1 := (optAssigned_cons_skip _ rest _ dv (assignsUp_ne a _ _ h3 (by decide))).mp hD
          cases sv with
          | none => simp [optAssigned, List.filter_cons, hpos] at hS
          | some v =>
            obtain ⟨s1, hfeq, hev⟩ := hS
            rw [List.filter_cons_of_pos hpos] at hfeq
            obtain ⟨hhead, htail⟩ := List.cons.inj hfeq
            have hev1 : constEval a.rhs = .ok v := by
              simpa [stmtRhs, ← hhead] using hev
            rw [evalSpec_cons_savper a rest sp v h3 hev1,
              ih _ tv lv none dv hT1 hL1 htail hD1]
            rfl
        · by_cases h4 : upperS a.lhs.name.name = "DT".data
          · have hpos := assignsUp_of_name a _ h4
            have hT1 := (optAssigned_cons_skip _ rest _ tv (assignsUp_ne a _ _ h4 (by decide))).mp hT
            have hL1 := (optAssigned_cons_skip _ rest _ lv (assignsUp_ne a _ _ h4 (by decide))).mp hL
            have hS1 := (optAssigned_cons_skip _ rest _ sv (assignsUp_ne a _ _ h4 (by decide))).mp hS
            cases dv with
            | none => simp [optAssigned, List.filter_cons, hpos] at hD
            | some v =>
              obtain ⟨s1, hfeq, hev⟩ := hD
              rw [List.filter_cons_of_pos hpos] at hfeq
              obtain ⟨hhead, htail⟩ := List.cons.inj hfeq
              have hev1 : constEval a.rhs = .ok v := by
                simpa [stmtRhs, ← hhead] using hev
              rw [evalSpec_cons_dt a rest sp v h4 hev1,
                ih _ tv lv sv none hT1 hL1 hS1 htail]
              rfl
          · have hskip : ∀ nm : List Char, upperS a.lhs.name.name ≠ nm →
                assignsUp nm (.assign a) = false := by
              intro nm hne
              simp [assignsUp, stmtName, hne]
            have hT1 := (optAssigned_cons_skip _ rest _ tv (hskip _ h1)).mp hT
            have hL1 := (optAssigned_cons_skip _ rest _ lv (hskip _ h2)).mp hL
            have hS1 := (optAssigned_cons_skip _ rest _ sv (hskip _ h3)).mp hS
            have hD1 := (optAssigned_cons_skip _ rest _ dv (hskip _ h4)).mp hD
            rw [evalSpec_cons_skip a rest sp h1 h2 h3 h4]
            exact ih _ tv lv sv dv hT1 hL1 hS1 hD1

theorem tsStmt_timespec_shaped (sp : Timespec) : isTimespecAssign (tsStmt sp) = true := by
  rfl

theorem tsStmt_not_reserved (sp : Timespec) : isReservedAssign (tsStmt sp) = false := by
  rfl

/-- C2: when the timespec pass runs on a main model, the
constant-evaluated values of the reserved assignments are mapped TIME to
start, LENGTH to end, SAVPER to save-interval and DT to step; any of the
four never assigned in the body takes its default (start = 0, end = 0,
dt = 1, save-interval = 1); and the synthesized timespec assignment's
value is a composite literal with exactly four key/value entries in the
fixed order start, end, dt, save_step, each a floating-point literal. -/
theorem claim2_timespec_mapping (body : List Stmt) (tv lv sv dv : Option Frac)
    (hT : optAssigned body "TIME".data tv)
    (hL : optAssigned body "LENGTH".data lv)
    (hS : optAssigned body "SAVPER".data sv)
    (hD : optAssigned body "DT".data dv) :
    extractTimespec body =
      .ok (body.filter keepStmt ++
        [.assign ⟨⟨idI "timespec".data, none⟩,
          .compositeLit
            [(idI "start".data, .basicLit 0 .float (formatF (tv.getD Frac.zero))),
             (idI "end".data, .basicLit 0 .float (formatF (lv.getD Frac.zero))),
             (idI "dt".data, .basicLit 0 .float (formatF (dv.getD Frac.one))),
             (idI "save_step".data, .basicLit 0 .float (formatF (sv.getD Frac.one)))]⟩]) := by
  unfold extractTimespec
  rw [evalSpec_eval body initialSpec tv lv sv dv hT hL hS hD]
  rfl

/-- Witness for C2 at the spec §8 example body `C TIME=0; C LENGTH=10;
C DT=0.5; C SAVPER=1; C POPN=100`. -/
theorem claim2_timespec_mapping_witness :
    extractTimespec bodyW =
      .ok (bodyW.filter keepStmt ++
        [.assign ⟨⟨idI "timespec".data, none⟩,
          .compositeLit
            [(idI "start".data, .basicLit 0 .float (formatF ((some ⟨0, 1⟩ : Option Frac).getD Frac.zero))),
             (idI "end".data, .basicLit 0 .float (formatF ((some ⟨10, 1⟩ : Option Frac).getD Frac.zero))),
             (idI "dt".data, .basicLit 0 .float (formatF ((some ⟨5, 10⟩ : Option Frac).getD Frac.one))),
             (idI "save_step".data, .basicLit 0 .float (formatF ((some ⟨1, 1⟩ : Option Frac).getD Frac.one)))]⟩]) :=
  claim2_timespec_mapping bodyW (some ⟨0, 1⟩) (some ⟨10, 1⟩) (some ⟨1, 1⟩) (some ⟨5, 10⟩)
    ⟨cStmt "TIME".data "0".data, rfl, rfl⟩
    ⟨cStmt "LENGTH".data "10".data, rfl, rfl⟩
    ⟨cStmt "SAVPER".data "1".data, rfl, rfl⟩
    ⟨cStmt "DT".data "0.5".data, rfl, rfl⟩

/-- C1: after the timespec semantic pass succeeds on the main model body
(which, as the parser builds it, contains no composite-valued `timespec`
assignment), the body contains no assignment whose target name, compared
case-insensitively, equals TIME, LENGTH, SAVPER or DT, and the body
contains exactly one synthesized `timespec` assignment, positioned as the
last statement. -/
theorem claim1_body_invariant (body out : List Stmt)
    (h : extractTimespec body = .ok out)
    (hpre : ∀ s ∈ body, isTimespecAssign s = false) :
    (∀ s ∈ out, isReservedAssign s = false) ∧
    (out.filter isTimespecAssign).length = 1 ∧
    ∃ sp : Timespec, out.getLast? = some (tsStmt sp) ∧ isTimespecAssign (tsStmt sp) = true := by
  unfold extractTimespec at h
  cases hev : evalSpec body initialSpec with
  | error e => rw [hev] at h; exact Except.noConfusion h
  | ok sp =>
    rw [hev] at h
    have hbo : out = body.filter keepStmt ++ [tsStmt sp] := (Except.ok.inj h).symm
    subst hbo
    refine ⟨?_, ?_, sp, List.getLast?_concat _, tsStmt_timespec_shaped sp⟩
    · intro s hs
      rcases List.mem_append.mp hs with hf | ht
      · have hk := List.of_mem_filter hf
        have hnm : ¬ upperS (stmtName s) ∈ reservedNames := by
          simpa [keepStmt] using hk
        simpa [isReservedAssign] using hnm
      · have hts : s = tsStmt sp := by simpa using ht
        rw [hts]
        exact tsStmt_not_reserved sp
    · rw [List.filter_append]
      have h1 : (body.filter keepStmt).filter isTimespecAssign = [] := by
        rw [List.filter_eq_nil_iff]
        intro s hs
        have hb := hpre s (List.mem_of_mem_filter hs)
        simp [hb]
      rw [h1]
      simp [tsStmt_timespec_shaped sp]

/-- Witness for C1 at the spec §8 example body. -/
theorem claim1_body_invariant_witness :
    (∀ s ∈ bodyW.filter keepStmt ++ [tsStmt ⟨⟨0, 1⟩, ⟨10, 1⟩, ⟨5, 10⟩, ⟨1, 1⟩⟩],
       isReservedAssign s = false) ∧
    ((bodyW.filter keepStmt ++ [tsStmt ⟨⟨0, 1⟩, ⟨10, 1⟩, ⟨5, 10⟩, ⟨1, 1⟩⟩]).filter
        isTimespecAssign).length = 1 ∧
    ∃ sp : Timespec,
      (bodyW.filter keepStmt ++ [tsStmt ⟨⟨0, 1⟩, ⟨10, 1⟩, ⟨5, 10⟩, ⟨1, 1⟩⟩]).getLast? =
        some (tsStmt sp) ∧ isTimespecAssign (tsStmt sp) = true :=
  claim1_body_invariant bodyW _ rfl (by decide)

theorem evalSpec_cons_res_err (a : AssignStmt) (rest : List Stmt) (sp : Timespec)
    (e : List Char) (hmem : upperS a.lhs.name.name ∈ reservedNames)
    (hfail : constEval a.rhs = .error e) :
    evalSpec (.assign a :: rest) sp = .error (constEvalMsg a.lhs.name.name e) := by
  rcases (by simpa [reservedNames] using hmem :
      upperS a.lhs.name.name = "TIME".data ∨ upperS a.lhs.name.name = "LENGTH".data ∨
      upperS a.lhs.name.name = "SAVPER".data ∨ upperS a.lhs.name.name = "DT".data)
    with h | h | h | h
  · simp only [evalSpec]
    rw [if_pos h, hfail]
  · have hne : upperS a.lhs.name.name ≠ "TIME".data := by rw [h]; decide
    simp only [evalSpec]
    rw [if_neg hne, if_pos h, hfail]
  · have hne1 : upperS a.lhs.name.name ≠ "TIME".data := by rw [h]; decide
    have hne2 : upperS a.lhs.name.name ≠ "LENGTH".data := by rw [h]; decide
    simp only [evalSpec]
    rw [if_neg hne1, if_neg hne2, if_pos h, hfail]
  · have hne1 : upperS a.lhs.name.name ≠ "TIME".data := by rw [h]; decide
    have hne2 : upperS a.lhs.name.name ≠ "LENGTH".data := by rw [h]; decide
    have hne3 : upperS a.lhs.name.name ≠ "SAVPER".data := by rw [h]; decide
    simp only [evalSpec]
    rw [if_neg hne1, if_neg hne2, if_neg hne3, if_pos h, hfail]

theorem evalSpec_cons_res_ok (a : AssignStmt) (rest : List Stmt) (sp : Timespec)
    (v : Frac) (hmem : upperS a.lhs.name.name ∈ reservedNames)
    (hev : constEval a.rhs = .ok v) :
    ∃ sp2 : Timespec, evalSpec (.assign a :: rest) sp = evalSpec rest sp2 := by
  rcases (by simpa [reservedNames] using hmem :
      upperS a.lhs.name.name = "TIME".data ∨ upperS a.lhs.name.name = "LENGTH".data ∨
      upperS a.lhs.name.name = "SAVPER".data ∨ upperS a.lhs.name.name = "DT".data)
    with h | h | h | h
  · exact ⟨_, evalSpec_cons_time a rest sp v h hev⟩
  · exact ⟨_, evalSpec_cons_length a rest sp v h hev⟩
  · exact ⟨_, evalSpec_cons_savper a rest sp v h hev⟩
  · exact ⟨_, evalSpec_cons_dt a rest sp v h hev⟩

theorem evalSpec_append_error (pre : List Stmt) (a : AssignStmt) (post : List Stmt)
    (e : List Char)
    (hres : isReservedAssign (.assign a) = true)
    (hfail : constEval a.rhs = .error e)
    (hok : ∀ s ∈ pre, isReservedAssign s = true → ∃ v, constEval (stmtRhs s) = .ok v) :
    ∀ sp : Timespec,
      evalSpec (pre ++ .assign a :: post) sp = .error (constEvalMsg a.lhs.name.name e) := by
  induction pre with
  | nil =>
    intro sp
    have hmem : upperS a.lhs.name.name ∈ reservedNames := by
      simpa [isReservedAssign, stmtName] using hres
    simpa using evalSpec_cons_res_err a post sp e hmem hfail
  | cons s pre ih =>
    intro sp
    obtain ⟨b⟩ := s
    have hok2 : ∀ s ∈ pre, isReservedAssign s = true → ∃ v, constEval (stmtRhs s) = .ok v :=
      fun s hs => hok s (List.mem_cons_of_mem _ hs)
    by_cases hr : isReservedAssign (.assign b) = true
    · obtain ⟨v, hv⟩ := hok _ (List.mem_cons_self _ _) hr
      have hmem : upperS b.lhs.name.name ∈ reservedNames := by
        simpa [isReservedAssign, stmtName] using hr
      obtain ⟨sp2, hstep⟩ :=
        evalSpec_cons_res_ok b (pre ++ .assign a :: post) sp v hmem
          (by simpa [stmtRhs] using hv)
      rw [List.cons_append, hstep]
      exact ih hok2 sp2
    · have hnm : ¬ upperS b.lhs.name.name ∈ reservedNames := by
        simpa [isReservedAssign, stmtName] using hr
      have h1 : upperS b.lhs.name.name ≠ "TIME".data := by
        intro hh; exact hnm (by rw [hh]; decide)
      have h2 : upperS b.lhs.name.name ≠ "LENGTH".data := by
        intro hh; exact hnm (by rw [hh]; decide)
      have h3 : upperS b.lhs.name.name ≠ "SAVPER".data := by
        intro hh; exact hnm (by rw [hh]; decide)
      have h4 : upperS b.lhs.name.name ≠ "DT".data := by
        intro hh; exact hnm (by rw [hh]; decide)
      rw [List.cons_append, evalSpec_cons_skip b _ sp h1 h2 h3 h4]
      exact ih hok2 sp

/-- C10: if constant evaluation of a reserved control assignment (TIME,
LENGTH, SAVPER or DT) fails, the timespec pass returns an error naming
the failing variable, and the model recorded for `main` keeps its body
exactly as parsed: no statements are removed and no timespec assignment
is appended (the pass's error is reported through the parser's `errorf`
instead). -/
theorem claim10_error_preserves_body (pre post : List Stmt) (a : AssignStmt)
    (e : List Char) (p : DynParser)
    (hres : isReservedAssign (.assign a) = true)
    (hfail : constEval a.rhs = .error e)
    (hok : ∀ s ∈ pre, isReservedAssign s = true → ∃ v, constEval (stmtRhs s) = .ok v) :
    extractTimespec (pre ++ .assign a :: post) =
      .error (constEvalMsg a.lhs.name.name e) ∧
    applyMainPass (idI "main".data) (pre ++ .assign a :: post) p =
      (⟨idI "main".data, pre ++ .assign a :: post⟩,
       p.errorf ("extractTimespec: ".data ++ constEvalMsg a.lhs.name.name e)) := by
  have h1 : extractTimespec (pre ++ .assign a :: post) =
      .error (constEvalMsg a.lhs.name.name e) := by
    unfold extractTimespec
    rw [evalSpec_append_error pre a post e hres hfail hok initialSpec]
  refine ⟨h1, ?_⟩
  unfold applyMainPass
  rw [h1]
  rfl

/-- Witness for C10: the body `C POPN=100; C DT=.` (a degenerate `.`
number token fails constant evaluation). -/
theorem claim10_error_preserves_body_witness :
    extractTimespec
        ([cStmt "POPN".data "100".data] ++ .assign ⟨⟨⟨0, "DT".data⟩, some ⟨0, "const".data⟩⟩,
          .basicLit 0 .float ".".data⟩ :: []) =
      .error (constEvalMsg "DT".data ("invalid float literal ".data ++ ".".data)) ∧
    applyMainPass (idI "main".data)
        ([cStmt "POPN".data "100".data] ++ .assign ⟨⟨⟨0, "DT".data⟩, some ⟨0, "const".data⟩⟩,
          .basicLit 0 .float ".".data⟩ :: [])
        ⟨[], 0, 0, []⟩ =
      (⟨idI "main".data,
        [cStmt "POPN".data "100".data] ++ .assign ⟨⟨⟨0, "DT".data⟩, some ⟨0, "const".data⟩⟩,
          .basicLit 0 .float ".".data⟩ :: []⟩,
       DynParser.errorf ⟨[], 0, 0, []⟩
         ("extractTimespec: ".data ++ constEvalMsg "DT".data
           ("invalid float literal ".data ++ ".".data))) :=
  claim10_error_preserves_body [cStmt "POPN".data "100".data] []
    ⟨⟨⟨0, "DT".data⟩, some ⟨0, "const".data⟩⟩, .basicLit 0 .float ".".data⟩ _ ⟨[], 0, 0, []⟩
    rfl rfl
    (by
      intro s hs hr
      rcases List.mem_singleton.mp hs with rfl
      exact absurd hr (by decide))

/-- C3 (evaluation at the failing input): parsing the program
`*` newline `T AHMT=2/2/1.6/1/.2/.005;` newline appends NO assignment
named AHMT to the model body — the parse reports zero errors and the
body holds only the synthesized timespec assignment — even though
`tableDef`, run at the table data (token index 3), successfully builds
the forward table literal with the six ordered y-values
2, 2, 1.6, 1, .2, .005 and consumes through the terminator (index 15).
`tableDef` returns its ok flag inverted (`nil, true` on error,
`table, false` on success), so `stmtInto` discards the well-formed
table statement. -/
theorem claim3_table_statement_dropped :
    (mainBody (Parse progTable)).filter (namedAssign "AHMT".data) = [] ∧
    (parseResultP progTable).2.1 = 0 ∧
    mainBody (Parse progTable) = [tsStmt initialSpec] ∧
    DynParser.tableDef ⟨tableToks, 3, 0, []⟩ =
      (some (.tableFwd
        [.basicLit 10 .float "2".data, .basicLit 12 .float "2".data,
         .basicLit 16 .float "1.6".data, .basicLit 18 .float "1".data,
         .basicLit 21 .float ".2".data, .basicLit 26 .float ".005".data]),
       false, ⟨tableToks, 15, 0, []⟩) :=
  ⟨rfl, rfl, rfl, rfl⟩

/-- C4 counterexample: the program `X` does not start with `*`; scanning
fails with a fatal scan error (single EOF token, fatal flag set), yet the
public Parse entry point reports SUCCESS: zero recorded errors and a
File whose main body holds only the synthesized timespec assignment —
refuting the claimed non-zero error count and non-nil aggregate
error. -/
theorem claim4_counterexample :
    scanTokens "X".data = some ([⟨1, ['X'], .eof⟩], true) ∧
    Parse "X".data =
      some (.ok ⟨idI "main".data, [⟨idI "main".data, [tsStmt initialSpec]⟩]⟩) ∧
    (parseResultP "X".data).2.1 = 0 :=
  ⟨rfl, rfl, rfl⟩

/-- C6 counterexample: for the program `*` newline `C X = ` newline
`C Y=2;` newline, the final model body contains NO constant declaration
named Y — the recovery discard after the failed first statement swallows
the `C Y=2;` statement as well. -/
theorem claim6_counterexample :
    (mainBody (Parse progMissingRhs)).filter (namedAssign "Y".data) = [] := rfl

/-- C6 (amended): in `*` newline `C X = ` newline `C Y=2;` newline, the
first statement fails on its missing right-hand side; since `=` is an
operator token the terminator-insertion flag is clear at the newline, no
terminator separates the two statements, and the discard runs through
the terminator of `C Y=2;`.  No diagnostic is recorded (the expression
parser fails silently), so the parse reports success with a body holding
only the synthesized timespec assignment. -/
theorem claim6_discard_swallows_next_statement :
    Parse progMissingRhs =
      some (.ok ⟨idI "main".data, [⟨idI "main".data, [tsStmt initialSpec]⟩]⟩) ∧
    (parseResultP progMissingRhs).2.1 = 0 ∧
    (parseResultP progMissingRhs).2.2 = ([] : List (List Char)) :=
  ⟨rfl, rfl, rfl⟩

/-- C7 counterexample: for the program `*` newline `FOO` newline
`C Y=2;` newline, the parser reports exactly one error at the
multi-character leading identifier FOO and then KEEPS PARSING: the model
body records the later constant Y (followed by the synthesized timespec
assignment), refuting "parsing of the overall model stops". -/
theorem claim7_counterexample :
    (parseResultP progBadLeader).2.1 = 1 ∧
    (fileMainBody (parseResultP progBadLeader).1).map stmtName =
      ["Y".data, "timespec".data] :=
  ⟨rfl, rfl⟩

/-- C7 (amended): when the statement loop of `declModel` peeks a leading
token that is neither EOF, a terminator, nor a single-character
identifier, it reports `expected 1 char ident` at that token, discards
that single token, and CONTINUES the loop at the next token; parsing of
the model does not stop (a terminator there is discarded silently, and
only end-of-input ends the loop). -/
theorem claim7_bad_leader_continues (fuel : Nat) (body : List Stmt) (p : DynParser)
    (hkind : p.peekT.kind ≠ .eof) (hsemi : p.peekT.kind ≠ .semi)
    (hident : ¬ (p.peekT.kind = .identifier ∧ p.peekT.val.length = 1)) :
    declGo (fuel + 1) body p =
      declGo fuel body
        (DynParser.errorf { p with idx := p.idx + 1 }
          ("expected 1 char ident, not ".data ++ p.peekT.val)) := by
  simp only [declGo]
  cases hk : p.peekT.kind with
  | eof => exact absurd hk hkind
  | semi => exact absurd hk hsemi
  | identifier =>
    have hlen : ¬ p.peekT.val.length = 1 := fun hl => hident ⟨hk, hl⟩
    rw [if_neg hlen]
  | number => rfl
  | operator => rfl
  | kindDecl => rfl
  | keyword => rfl
  | literal => rfl
  | lbracket => rfl
  | rbracket => rfl
  | lparen => rfl
  | rparen => rfl
  | lsquare => rfl
  | rsquare => rfl

theorem DynLex.next_eq_get (l : DynLex) (h : l.pos < l.s.length) :
    l.next = (l.s.get ⟨l.pos, h⟩, { l with pos := l.pos + 1, width := 1 }) := by
  unfold DynLex.next
  rw [dif_pos h]

theorem DynLex.next_eq_eof (l : DynLex) (h : ¬ l.pos < l.s.length) :
    l.next = (eofRune, l) := by
  unfold DynLex.next
  rw [dif_neg h]

theorem runScan_succ (fuel : Nat) (m : Mode) (l : DynLex) :
    runScan (fuel + 1) m l =
      match step m l with
      | none => none
      | some (.stop l1) => some l1
      | some (.cont m1 l1) => runScan fuel m1 l1 := rfl

theorem step_begin (l : DynLex) : step .begin l =
    (let (r, l1) := l.next
     if r = '*' then some (.cont .comment l1) else some (.stop l1.errorf)) := rfl

/-- C4 (amended): for every input whose first character is not `*`,
scanning fails immediately with a fatal scan error — the token stream is
a single EOF token, with the fatal-diagnostic flag set — and zero
statements are parsed into the model body; but the public Parse entry
point reports SUCCESS: the error count is 0 and Parse returns a File
whose main model body holds only the synthesized timespec assignment
(the scanner's fatal diagnostic goes to the process log, never into the
parser's error buffer). -/
theorem claim4_no_star_fails_scan_but_parse_succeeds (input : List Char)
    (h : input.head? ≠ some '*') :
    scanTokens input = some ([⟨min 1 input.length, input.take 1, .eof⟩], true) ∧
    Parse input = some (.ok ⟨idI "main".data, [⟨idI "main".data, [tsStmt initialSpec]⟩]⟩) ∧
    (parseResultP input).2.1 = 0 := by
  cases input with
  | nil => exact ⟨rfl, rfl, rfl⟩
  | cons c rest =>
    have hc : c ≠ '*' := fun hh => h (by simp [hh])
    have hlt : (initLex (c :: rest)).pos < (initLex (c :: rest)).s.length := by
      simp [initLex]
    have hnext : (initLex (c :: rest)).next =
        (c, { initLex (c :: rest) with pos := 1, width := 1 }) := by
      rw [DynLex.next_eq_get _ hlt]
      rfl
    have hstep : step .begin (initLex (c :: rest)) =
        some (.stop (DynLex.errorf
          { initLex (c :: rest) with pos := 1, width := 1 })) := by
      rw [step_begin, hnext]
      exact if_neg hc
    have hscan : scanTokens (c :: rest) = some ([⟨1, [c], .eof⟩], true) := by
      unfold scanTokens
      rw [show 4 * (c :: rest).length + 16 = (4 * (c :: rest).length + 15) + 1 from rfl]
      rw [runScan_succ, hstep]
      rfl
    refine ⟨?_, ?_, ?_⟩
    · rw [hscan]
      simp [List.take, Nat.min_def]
    · unfold Parse
      rw [hscan]
      rfl
    · unfold parseResultP
      rw [hscan]
      rfl

/-- Witness for the C4 amended theorem at the input `X`. -/
theorem claim4_no_star_witness :
    scanTokens "X".data = some ([⟨min 1 "X".data.length, "X".data.take 1, .eof⟩], true) ∧
    Parse "X".data =
      some (.ok ⟨idI "main".data, [⟨idI "main".data, [tsStmt initialSpec]⟩]⟩) ∧
    (parseResultP "X".data).2.1 = 0 :=
  claim4_no_star_fails_scan_but_parse_succeeds "X".data (by decide)

theorem step_statement (l : DynLex) : step .statement l =
    (let (r, l1) := l.next
     if r = eofRune then
       some (.stop (DynLex.emit .eof (if l1.semi then DynLex.emit .semi l1 else l1)))
     else if r = '/' then
       let (p, l2) := l1.peek
       if p = '/' then some (.cont .comment (l2.next).2)
       else if p = '*' then some (.cont .multiComment (l2.next).2)
       else some (.cont .statement (DynLex.emit .operator l2))
     else if r = '`' then some (.cont .lexType l1)
     else if r = ';' then some (.cont .statement (DynLex.emit .semi l1))
     else if isSpace r then
       some (.cont .statement
         (DynLex.ignore (if r = '\n' ∧ l1.semi then DynLex.emit .semi l1 else l1)))
     else if r.isDigit ∨ r = '.' then some (.cont .number l1.backup)
     else if isLiteralStart r then some (.cont .literal l1.backup)
     else if isIdentifierStart r then some (.cont .identifier l1.backup)
     else if isOperator r then some (.cont .operator l1.backup)
     else some (.stop l1.errorf)) := rfl

theorem step_statement_eq (l : DynLex) (r : Char) (l1 : DynLex) (h : l.next = (r, l1)) :
    step .statement l =
    (if r = eofRune then
       some (.stop (DynLex.emit .eof (if l1.semi then DynLex.emit .semi l1 else l1)))
     else if r = '/' then
       let (p, l2) := l1.peek
       if p = '/' then some (.cont .comment (l2.next).2)
       else if p = '*' then some (.cont .multiComment (l2.next).2)
       else some (.cont .statement (DynLex.emit .operator l2))
     else if r = '`' then some (.cont .lexType l1)
     else if r = ';' then some (.cont .statement (DynLex.emit .semi l1))
     else if isSpace r then
       some (.cont .statement
         (DynLex.ignore (if r = '\n' ∧ l1.semi then DynLex.emit .semi l1 else l1)))
     else if r.isDigit ∨ r = '.' then some (.cont .number l1.backup)
     else if isLiteralStart r then some (.cont .literal l1.backup)
     else if isIdentifierStart r then some (.cont .identifier l1.backup)
     else if isOperator r then some (.cont .operator l1.backup)
     else some (.stop l1.errorf)) := by
  rw [step_statement, h]

theorem step_statement_newline (l : DynLex) (hpos : l.pos < l.s.length)
    (hch : l.s.get ⟨l.pos, hpos⟩ = '\n') :
    step .statement l = some (.cont .statement (DynLex.ignore
      (if l.semi then DynLex.emit .semi { l with pos := l.pos + 1, width := 1 }
       else { l with pos := l.pos + 1, width := 1 }))) := by
  rw [step_statement_eq l '\n' { l with pos := l.pos + 1, width := 1 }
    (by rw [DynLex.next_eq_get l hpos, hch])]
  rw [if_neg (show ¬ (('\n' : Char) = eofRune) by decide),
    if_neg (show ¬ (('\n' : Char) = '/') by decide),
    if_neg (show ¬ (('\n' : Char) = '`') by decide),
    if_neg (show ¬ (('\n' : Char) = ';') by decide),
    if_pos (show isSpace '\n' = true by decide)]
  have hiff : (('\n' : Char) = '\n' ∧
      ({ l with pos := l.pos + 1, width := 1 } : DynLex).semi = true) ↔ l.semi = true := by
    simp
  rw [if_congr hiff rfl rfl]

theorem step_statement_eof (l : DynLex) (hpos : ¬ l.pos < l.s.length) :
    step .statement l =
      some (.stop (DynLex.emit .eof (if l.semi then DynLex.emit .semi l else l))) := by
  rw [step_statement_eq l eofRune l (DynLex.next_eq_eof l hpos)]
  rw [if_pos rfl]

theorem sliceG_self (s : List Char) (p : Nat) : sliceG s p p = [] := by
  simp [sliceG, List.drop_eq_nil_iff]

/-- C5: during scanning, the `semi` flag equals "the most recently
emitted token can legally end a statement" — it is armed exactly by
identifiers, numbers, kind declarations, quoted literals and closing
bracket/paren/square tokens, tracked through every `emit`, and clear in
the fresh scanner state — and the statement scanner emits a terminator
token at a newline if and only if that flag is armed; at end of input,
with the flag armed, a terminator token is emitted immediately before
the final EOF token, and without it only the EOF token is emitted. -/
theorem claim5_terminator_insertion :
    (∀ k : ItemType, semiAfter k = true ↔
        k ∈ ([.identifier, .number, .kindDecl, .literal, .rbracket, .rparen, .rsquare] :
          List ItemType)) ∧
    (∀ (k : ItemType) (l : DynLex),
        (DynLex.emit k l).semi = semiAfter k ∧ (DynLex.emit k l).last.kind = k) ∧
    (∀ input : List Char, (initLex input).semi = semiAfter (initLex input).last.kind) ∧
    (∀ (l : DynLex) (hpos : l.pos < l.s.length),
        l.semi = semiAfter l.last.kind →
        l.s.get ⟨l.pos, hpos⟩ = '\n' →
        ∃ l2, step .statement l = some (.cont .statement l2) ∧
          (semiAfter l.last.kind = true →
              l2.items = l.items ++ [⟨l.pos + 1, sliceG l.s l.start (l.pos + 1), .semi⟩]) ∧
          (semiAfter l.last.kind = false → l2.items = l.items)) ∧
    (∀ l : DynLex, ¬ l.pos < l.s.length →
        l.semi = semiAfter l.last.kind →
        ∃ lf, step .statement l = some (.stop lf) ∧
          (semiAfter l.last.kind = true →
              lf.items = l.items ++
                [⟨l.pos, sliceG l.s l.start l.pos, .semi⟩, ⟨l.pos, [], .eof⟩]) ∧
          (semiAfter l.last.kind = false →
              lf.items = l.items ++ [⟨l.pos, sliceG l.s l.start l.pos, .eof⟩])) := by
  refine ⟨?_, ?_, ?_, ?_, ?_⟩
  · intro k
    cases k <;> decide
  · intro k l
    exact ⟨rfl, rfl⟩
  · intro input
    rfl
  · intro l hpos hinv hch
    refine ⟨_, step_statement_newline l hpos hch, ?_, ?_⟩
    · intro ht
      have hs : l.semi = true := by rw [hinv, ht]
      rw [hs]
      rfl
    · intro hf
      have hs : l.semi = false := by rw [hinv, hf]
      rw [hs]
      rfl
  · intro l hpos hinv
    refine ⟨_, step_statement_eof l hpos, ?_, ?_⟩
    · intro ht
      have hs : l.semi = true := by rw [hinv, ht]
      rw [hs]
      show (DynLex.emit .eof (DynLex.emit .semi l)).items = _
      simp [DynLex.emit, sliceG_self]
    · intro hf
      have hs : l.semi = false := by rw [hinv, hf]
      rw [hs]
      rfl

/-- Witness for C5: the kind table at `number`; `emit` flag tracking at a
terminator token; the fresh state; the newline rule at `lexA` (armed
flag, next rune a newline); the end-of-input rule at `lexB` (armed
flag). -/
theorem claim5_terminator_insertion_witness :
    (semiAfter .number = true ↔
        .number ∈ ([.identifier, .number, .kindDecl, .literal, .rbracket, .rparen, .rsquare] :
          List ItemType)) ∧
    ((DynLex.emit .semi lexA).semi = semiAfter .semi ∧
        (DynLex.emit .semi lexA).last.kind = .semi) ∧
    ((initLex "x".data).semi = semiAfter (initLex "x".data).last.kind) ∧
    (∃ l2, step .statement lexA = some (.cont .statement l2) ∧
      (semiAfter lexA.last.kind = true →
          l2.items = lexA.items ++ [⟨lexA.pos + 1, sliceG lexA.s lexA.start (lexA.pos + 1), .semi⟩]) ∧
      (semiAfter lexA.last.kind = false → l2.items = lexA.items)) ∧
    (∃ lf, step .statement lexB = some (.stop lf) ∧
      (semiAfter lexB.last.kind = true →
          lf.items = lexB.items ++
            [⟨lexB.pos, sliceG lexB.s lexB.start lexB.pos, .semi⟩, ⟨lexB.pos, [], .eof⟩]) ∧
      (semiAfter lexB.last.kind = false →
          lf.items = lexB.items ++ [⟨lexB.pos, sliceG lexB.s lexB.start lexB.pos, .eof⟩])) :=
  ⟨claim5_terminator_insertion.1 .number,
   claim5_terminator_insertion.2.1 .semi lexA,
   claim5_terminator_insertion.2.2.1 "x".data,
   claim5_terminator_insertion.2.2.2.1 lexA (by decide) (by decide) (by decide),
   claim5_terminator_insertion.2.2.2.2 lexB (by decide) (by decide)⟩

/-- Witness for the C7 amended theorem at the leading token FOO. -/
theorem claim7_bad_leader_continues_witness :
    declGo 1 [] ⟨[⟨5, "FOO".data, .identifier⟩], 0, 0, []⟩ =
      declGo 0 []
        (DynParser.errorf
          { (⟨[⟨5, "FOO".data, .identifier⟩], 0, 0, []⟩ : DynParser) with idx := 0 + 1 }
          ("expected 1 char ident, not ".data ++
            (DynParser.peekT ⟨[⟨5, "FOO".data, .identifier⟩], 0, 0, []⟩).val)) :=
  claim7_bad_leader_continues 0 [] ⟨[⟨5, "FOO".data, .identifier⟩], 0, 0, []⟩
    (by decide) (by decide) (by decide)

theorem self_ne_append_singleton (body : List Stmt) (x : Stmt) : body ≠ body ++ [x] := by
  intro h
  simpa using congrArg List.length h

theorem varDecl_some (q : DynParser) (t : Token) (d : VarDecl) (q2 : DynParser)
    (h : q.varDecl t = (some d, q2)) : d.type = some (typeIdent t) := by
  unfold DynParser.varDecl at h
  split at h
  rename_i nameTok p1 heq
  split at h
  · simp at h
  · simp only [Prod.mk.injEq, Option.some.injEq] at h
    rw [← h.1]

/-- C8: every statement actually appended to the model body by
`stmtInto` records, on its variable declaration, the semantic role
determined by the case-insensitively interpreted single-letter type tag:
L the stock role, N the initial-value role, C the constant role
(identifier `const`), R the flow role, A the auxiliary role (identifier
`aux`), T the table role. -/
theorem claim8_tag_role_mapping (p : DynParser) (body : List Stmt) (a : AssignStmt)
    (h : (p.stmtInto body).1 = body ++ [.assign a]) :
    (upperS p.peekT.val, a.lhs.type.map Ident.name) ∈
      ([("L".data, some "stock".data), ("N".data, some "initial".data),
        ("C".data, some "const".data), ("R".data, some "flow".data),
        ("A".data, some "aux".data), ("T".data, some "table".data)] :
        List (List Char × Option (List Char))) := by
  have hne := self_ne_append_singleton body (.assign a)
  rcases hres : p.stmtInto body with ⟨body2, p2⟩
  rw [hres] at h
  simp only at h
  unfold DynParser.stmtInto at hres
  split at hres
  rename_i nameTok p1 heq
  have heq2 : (p.peekT, { p with idx := p.idx + 1 }) = (nameTok, p1) := heq
  obtain ⟨hnt, hp1⟩ := Prod.mk.inj heq2
  subst hnt
  simp only at hres
  split at hres
  · rename_i hmem
    split at hres
    · rename_i q2 heqv
      obtain ⟨hb, -⟩ := Prod.mk.inj hres
      rw [← hb] at h
      exact absurd h hne
    · rename_i d q2 heqv
      split at hres
      · rename_i q3 heqc
        obtain ⟨hb, -⟩ := Prod.mk.inj hres
        rw [← hb] at h
        exact absurd h hne
      · rename_i q3 heqc
        split at hres
        · rename_i q4 heqe
          obtain ⟨hb, -⟩ := Prod.mk.inj hres
          rw [← hb] at h
          exact absurd h hne
        · rename_i e q4 heqe
          obtain ⟨hb, -⟩ := Prod.mk.inj hres
          rw [← hb] at h
          have hx : Stmt.assign ⟨d, e⟩ = Stmt.assign a := by
            have h10 := List.append_cancel_left h
            simpa using h10
          obtain h9 := Stmt.assign.inj hx
          have htype := varDecl_some _ _ _ _ heqv
          rw [← h9]
          simp only
          rw [htype]
          have hmem2 : upperS p.peekT.val = ['L'] ∨ upperS p.peekT.val = ['N'] ∨
              upperS p.peekT.val = ['C'] ∨ upperS p.peekT.val = ['R'] ∨
              upperS p.peekT.val = ['A'] := by simpa using hmem
          rcases hmem2 with hv | hv | hv | hv | hv <;> rw [hv] <;> simp [typeIdent]
  · split at hres
    · rename_i hT
      split at hres
      · rename_i q2 heqv
        obtain ⟨hb, -⟩ := Prod.mk.inj hres
        rw [← hb] at h
        exact absurd h hne
      · rename_i d q2 heqv
        split at hres
        · rename_i q3 heqc
          obtain ⟨hb, -⟩ := Prod.mk.inj hres
          rw [← hb] at h
          exact absurd h hne
        · rename_i q3 heqc
          split at hres
          · obtain ⟨hb, -⟩ := Prod.mk.inj hres
            rw [← hb] at h
            exact absurd h hne
          · obtain ⟨hb, -⟩ := Prod.mk.inj hres
            rw [← hb] at h
            have hx := List.append_cancel_left h
            simp only [List.cons.injEq, and_true] at hx
            obtain h9 := Stmt.assign.inj hx
            have htype := varDecl_some _ _ _ _ heqv
            rw [← h9]
            simp only
            rw [htype]
            rw [hT]
            simp [typeIdent]
    · rename_i hT
      obtain ⟨hb, -⟩ := Prod.mk.inj hres
      rw [← hb] at h
      exact absurd h hne

/-- Witness for C8: the token stream `C X = 2 ;` appends a declaration
whose recorded role is `const`. -/
theorem claim8_tag_role_mapping_witness :
    (upperS (DynParser.peekT ⟨[⟨3, ['C'], .identifier⟩, ⟨5, ['X'], .identifier⟩,
        ⟨7, ['='], .operator⟩, ⟨9, ['2'], .number⟩, ⟨10, [';'], .semi⟩], 0, 0, []⟩).val,
      (AssignStmt.mk ⟨⟨5, ['X']⟩, some ⟨3, "const".data⟩⟩
        (.basicLit 9 .float ['2'])).lhs.type.map Ident.name) ∈
      ([("L".data, some "stock".data), ("N".data, some "initial".data),
        ("C".data, some "const".data), ("R".data, some "flow".data),
        ("A".data, some "aux".data), ("T".data, some "table".data)] :
        List (List Char × Option (List Char))) :=
  claim8_tag_role_mapping
    ⟨[⟨3, ['C'], .identifier⟩, ⟨5, ['X'], .identifier⟩, ⟨7, ['='], .operator⟩,
      ⟨9, ['2'], .number⟩, ⟨10, [';'], .semi⟩], 0, 0, []⟩
    [] (AssignStmt.mk ⟨⟨5, ['X']⟩, some ⟨3, "const".data⟩⟩ (.basicLit 9 .float ['2'])) rfl

theorem sliceG_ends_at (s : List Char) (a b : Nat) (hb : b ≤ s.length) :
    sliceG s a b = sliceG s (b - (sliceG s a b).length) b := by
  by_cases hab : a ≤ b
  · have hlen : (sliceG s a b).length = b - a := by
      simp [sliceG, List.length_drop, List.length_take]
      omega
    rw [hlen, Nat.sub_sub_self hab]
  · have hnil : sliceG s a b = [] := by
      apply List.drop_eq_nil_of_le
      simp [List.length_take]
      omega
    rw [hnil]
    simp [sliceG_self]

theorem LexOk.toNext {l0 l : DynLex} (h : LexOk l0 l) : LexOk l0 (l.next).2 := by
  obtain ⟨hs, hp, hi⟩ := h
  unfold DynLex.next
  split
  · exact ⟨hs, by simpa using ‹l.pos < l.s.length›, hi⟩
  · exact ⟨hs, hp, hi⟩

theorem LexOk.toBackup {l0 l : DynLex} (h : LexOk l0 l) : LexOk l0 l.backup :=
  ⟨h.1, le_trans (Nat.sub_le _ _) h.2.1, h.2.2⟩

theorem LexOk.toIgnore {l0 l : DynLex} (h : LexOk l0 l) : LexOk l0 l.ignore :=
  ⟨h.1, h.2.1, h.2.2⟩

theorem LexOk.toEmit {l0 l : DynLex} (h : LexOk l0 l) (k : ItemType) :
    LexOk l0 (DynLex.emit k l) := by
  obtain ⟨hs, hp, hi⟩ := h
  refine ⟨hs, hp, ?_⟩
  intro t ht
  rcases List.mem_append.mp ht with hin | hnew
  · exact hi t hin
  · have ht2 : t = ⟨l.pos, sliceG l.s l.start l.pos, k⟩ := by simpa using hnew
    rw [ht2]
    show sliceG l.s l.start l.pos = sliceG l0.s (l.pos - _) l.pos
    rw [← hs]
    exact sliceG_ends_at l.s l.start l.pos hp

theorem LexOk.toErrorf {l0 l : DynLex} (h : LexOk l0 l) : LexOk l0 l.errorf :=
  LexOk.toEmit ⟨h.1, h.2.1, h.2.2⟩ .eof

theorem LexOk.toPeek {l0 l : DynLex} (h : LexOk l0 l) : LexOk l0 (l.peek).2 := by
  unfold DynLex.peek
  exact h.toNext.toBackup

theorem LexOk.ofNextEq {l0 l l1 : DynLex} {c : Char} (hnext : l.next = (c, l1))
    (h : LexOk l0 l) : LexOk l0 l1 := by
  have h2 := h.toNext
  rw [hnext] at h2
  exact h2

theorem accept_eq (l : DynLex) (valid : List Char) (c : Char) (l1 : DynLex)
    (h : l.next = (c, l1)) :
    l.accept valid = if c ∈ valid then (true, l1) else (false, l1.backup) := by
  unfold DynLex.accept
  rw [h]

theorem acceptRunGo_succ (valid : List Char) (fuel : Nat) (l : DynLex) :
    acceptRunGo valid (fuel + 1) l =
      (let (r, l1) := l.next
       if r ∈ valid then acceptRunGo valid fuel l1 else l1.backup) := rfl

theorem acceptRunGo_succ_eq (valid : List Char) (fuel : Nat) (l : DynLex) (c : Char)
    (l1 : DynLex) (h : l.next = (c, l1)) :
    acceptRunGo valid (fuel + 1) l =
      if c ∈ valid then acceptRunGo valid fuel l1 else l1.backup := by
  rw [acceptRunGo_succ, h]

theorem runUntil_succ (stop : Char → Bool) (fuel : Nat) (l : DynLex) :
    runUntil stop (fuel + 1) l =
      (let (r, l1) := l.next
       if stop r then some l1 else runUntil stop fuel l1) := rfl

theorem runUntil_succ_eq (stop : Char → Bool) (fuel : Nat) (l : DynLex) (c : Char)
    (l1 : DynLex) (h : l.next = (c, l1)) :
    runUntil stop (fuel + 1) l = if stop c then some l1 else runUntil stop fuel l1 := by
  rw [runUntil_succ, h]

theorem multiSkip_succ (fuel : Nat) (l : DynLex) :
    multiSkip (fuel + 1) l =
      (let (r, l1) := l.next
       if r = eofRune then some l1.backup
       else if r ≠ '*' then multiSkip fuel l1
       else
         let (p, l2) := l1.peek
         if p = '/' then some (l2.next).2 else multiSkip fuel l2) := rfl

theorem multiSkip_succ_eq (fuel : Nat) (l : DynLex) (c : Char) (l1 : DynLex)
    (h : l.next = (c, l1)) :
    multiSkip (fuel + 1) l =
      (if c = eofRune then some l1.backup
       else if c ≠ '*' then multiSkip fuel l1
       else
         let (p, l2) := l1.peek
         if p = '/' then some (l2.next).2 else multiSkip fuel l2) := by
  rw [multiSkip_succ, h]

theorem LexOk.toAccept {l0 l : DynLex} (h : LexOk l0 l) (valid : List Char) :
    LexOk l0 (l.accept valid).2 := by
  rcases hnext : l.next with ⟨c, l1⟩
  have h1 := LexOk.ofNextEq hnext h
  rw [accept_eq l valid c l1 hnext]
  split
  · exact h1
  · exact h1.toBackup

theorem LexOk.toAcceptRunGo {l0 : DynLex} (valid : List Char) (fuel : Nat) :
    ∀ l : DynLex, LexOk l0 l → LexOk l0 (acceptRunGo valid fuel l) := by
  induction fuel with
  | zero => intro l h; exact h
  | succ fuel ih =>
    intro l h
    rcases hnext : l.next with ⟨c, l1⟩
    have h1 := LexOk.ofNextEq hnext h
    rw [acceptRunGo_succ_eq valid fuel l c l1 hnext]
    split
    · exact ih _ h1
    · exact h1.toBackup

theorem LexOk.toAcceptRun {l0 l : DynLex} (h : LexOk l0 l) (valid : List Char) :
    LexOk l0 (l.acceptRun valid) :=
  LexOk.toAcceptRunGo valid _ l h

theorem LexOk.ofRunUntil {l0 : DynLex} (stop : Char → Bool) (fuel : Nat) :
    ∀ l l1 : DynLex, LexOk l0 l → runUntil stop fuel l = some l1 → LexOk l0 l1 := by
  induction fuel with
  | zero => intro l l1 h hr; exact absurd hr (by simp [runUntil])
  | succ fuel ih =>
    intro l l1 h hr
    rcases hnext : l.next with ⟨c, l2⟩
    have h1 := LexOk.ofNextEq hnext h
    rw [runUntil_succ_eq stop fuel l c l2 hnext] at hr
    split at hr
    · exact (Option.some.inj hr) ▸ h1
    · exact ih _ _ h1 hr

theorem LexOk.ofMultiSkip {l0 : DynLex} (fuel : Nat) :
    ∀ l l1 : DynLex, LexOk l0 l → multiSkip fuel l = some l1 → LexOk l0 l1 := by
  induction fuel with
  | zero => intro l l1 h hr; exact absurd hr (by simp [multiSkip])
  | succ fuel ih =>
    intro l l1 h hr
    rcases hnext : l.next with ⟨c, l2⟩
    have h1 := LexOk.ofNextEq hnext h
    rw [multiSkip_succ_eq fuel l c l2 hnext] at hr
    split at hr
    · exact (Option.some.inj hr) ▸ h1.toBackup
    · split at hr
      · exact ih _ _ h1 hr
      · rcases hpeek : l2.peek with ⟨pc, l3⟩
        have h3 : LexOk l0 l3 := by
          have h4 := h1.toPeek
          rw [hpeek] at h4
          exact h4
        rw [hpeek] at hr
        simp only at hr
        split at hr
        · exact (Option.some.inj hr) ▸ h3.toNext
        · exact ih _ _ h3 hr

theorem step_operator (l : DynLex) : step .operator l =
    (let (r, l1) := l.next
     let ty : ItemType :=
       if r = '{' then .lbracket
       else if r = '}' then .rbracket
       else if r = '(' then .lparen
       else if r = ')' then .rparen
       else if r = '[' then .lsquare
       else if r = ']' then .rsquare
       else .operator
     some (.cont .statement (DynLex.emit ty l1))) := rfl

theorem step_comment (l : DynLex) : step .comment l =
    (match runUntil (fun r => r = '\n' ∨ r = eofRune) (l.s.length + 2) l with
     | none => none
     | some l1 => some (.cont .statement l1.backup.ignore)) := rfl

theorem step_multiComment (l : DynLex) : step .multiComment l =
    (match multiSkip (l.s.length + 2) l with
     | none => none
     | some l1 => some (.cont .statement l1.ignore)) := rfl

theorem step_lexType (l : DynLex) : step .lexType l =
    (match runUntil (fun r => r = '`' ∨ r = eofRune) (l.s.length + 2) l.ignore with
     | none => none
     | some l1 =>
       let l2 := l1.backup
       let (p, l3) := l2.peek
       if p ≠ '`' then some (.stop l3.errorf)
       else some (.cont .statement ((DynLex.emit .kindDecl l3).next).2.ignore)) := rfl

theorem step_number (l : DynLex) : step .number l =
    some (.cont .statement (DynLex.emit .number
      (if ((((l.acceptRun digitChars).accept ['.']).2.acceptRun digitChars).accept
            ['e', 'E']).1 then
        (((((((l.acceptRun digitChars).accept ['.']).2.acceptRun digitChars).accept
            ['e', 'E']).2).accept ['+', '-']).2).acceptRun digitChars
      else ((((l.acceptRun digitChars).accept ['.']).2.acceptRun digitChars).accept
            ['e', 'E']).2))) := rfl

theorem step_literal (l : DynLex) : step .literal l =
    (let (delim, l1) := l.next
     let l2 := l1.ignore
     match runUntil (fun r => r = delim ∨ r = eofRune) (l.s.length + 2) l2 with
     | none => none
     | some l3 =>
       let l4 := l3.backup
       let (p, l5) := l4.peek
       if p ≠ delim then some (.stop l5.errorf)
       else some (.cont .statement ((DynLex.emit .literal l5).next).2.ignore)) := rfl

theorem step_identifier (l : DynLex) : step .identifier l =
    (match runUntil (fun r => ¬ isAlphaNumeric r) (l.s.length + 2) l with
     | none => none
     | some l1 =>
       let l2 := l1.backup
       let idv := sliceG l2.s l2.start l2.pos
       let k : ItemType := if idv ∈ keywordSpellings then ItemType.keyword else .identifier
       some (.cont .statement (DynLex.emit k l2))) := rfl

theorem step_lexOk (m : Mode) {l0 l : DynLex} (h : LexOk l0 l) :
    ∀ r : StepRes, step m l = some r →
      (match r with
       | .cont _ l1 => LexOk l0 l1
       | .stop l1 => LexOk l0 l1) := by
  intro r hr
  cases m
  case begin =>
    rcases hnext : l.next with ⟨c, l1⟩
    have h1 := LexOk.ofNextEq hnext h
    rw [step_begin, hnext] at hr
    simp only at hr
    split at hr
    · cases Option.some.inj hr
      exact h1
    · cases Option.some.inj hr
      exact h1.toErrorf
  case statement =>
    rcases hnext : l.next with ⟨c, l1⟩
    have h1 := LexOk.ofNextEq hnext h
    rw [step_statement_eq l c l1 hnext] at hr
    split at hr
    · cases Option.some.inj hr
      show LexOk l0 (DynLex.emit .eof _)
      split
      · exact (h1.toEmit .semi).toEmit .eof
      · exact h1.toEmit .eof
    · rcases hpeek : l1.peek with ⟨pc, l2⟩
      have h2 : LexOk l0 l2 := by
        have h4 := h1.toPeek
        rw [hpeek] at h4
        exact h4
      rw [hpeek] at hr
      simp only at hr
      split at hr
      · split at hr
        · cases Option.some.inj hr
          exact h2.toNext
        · split at hr
          · cases Option.some.inj hr
            exact h2.toNext
          · cases Option.some.inj hr
            exact h2.toEmit .operator
      · split at hr
        · cases Option.some.inj hr
          exact h1
        · split at hr
          · cases Option.some.inj hr
            exact h1.toEmit .semi
          · split at hr
            · cases Option.some.inj hr
              show LexOk l0 (DynLex.ignore _)
              split
              · exact (h1.toEmit .semi).toIgnore
              · exact h1.toIgnore
            · split at hr
              · cases Option.some.inj hr
                exact h1.toBackup
              · split at hr
                · cases Option.some.inj hr
                  exact h1.toBackup
                · split at hr
                  · cases Option.some.inj hr
                    exact h1.toBackup
                  · split at hr
                    · cases Option.some.inj hr
                      exact h1.toBackup
                    · cases Option.some.inj hr
                      exact h1.toErrorf
  case operator =>
    rcases hnext : l.next with ⟨c, l1⟩
    have h1 := LexOk.ofNextEq hnext h
    rw [step_operator, hnext] at hr
    simp only at hr
    cases Option.some.inj hr
    exact h1.toEmit _
  case comment =>
    rw [step_comment] at hr
    rcases hru : runUntil (fun r => r = '\n' ∨ r = eofRune) (l.s.length + 2) l with _ | l1
    · rw [hru] at hr
      exact absurd hr (by simp)
    · rw [hru] at hr
      cases Option.some.inj hr
      exact ((LexOk.ofRunUntil _ _ _ _ h hru).toBackup).toIgnore
  case multiComment =>
    rw [step_multiComment] at hr
    rcases hms : multiSkip (l.s.length + 2) l with _ | l1
    · rw [hms] at hr
      exact absurd hr (by simp)
    · rw [hms] at hr
      cases Option.some.inj hr
      exact (LexOk.ofMultiSkip _ _ _ h hms).toIgnore
  case lexType =>
    rw [step_lexType] at hr
    rcases hru : runUntil (fun r => r = '`' ∨ r = eofRune) (l.s.length + 2) l.ignore
      with _ | l1
    · rw [hru] at hr
      exact absurd hr (by simp)
    · rw [hru] at hr
      simp only at hr
      have h1 := (LexOk.ofRunUntil _ _ _ _ h.toIgnore hru).toBackup
      rcases hpeek : l1.backup.peek with ⟨pc, l3⟩
      have h3 : LexOk l0 l3 := by
        have h4 := h1.toPeek
        rw [hpeek] at h4
        exact h4
      rw [hpeek] at hr
      simp only at hr
      split at hr
      · cases Option.some.inj hr
        exact h3.toErrorf
      · cases Option.some.inj hr
        exact ((h3.toEmit .kindDecl).toNext).toIgnore
  case number =>
    rw [step_number] at hr
    have h3 := ((h.toAcceptRun digitChars).toAccept ['.']).toAcceptRun digitChars
    have h4 := h3.toAccept ['e', 'E']
    cases Option.some.inj hr
    show LexOk l0 (DynLex.emit .number _)
    split
    · exact ((h4.toAccept ['+', '-']).toAcceptRun digitChars).toEmit .number
    · exact h4.toEmit .number
  case literal =>
    rw [step_literal] at hr
    rcases hnext : l.next with ⟨delim, l1⟩
    have h1 := LexOk.ofNextEq hnext h
    rw [hnext] at hr
    simp only at hr
    rcases hru : runUntil (fun r => r = delim ∨ r = eofRune) (l.s.length + 2) l1.ignore
      with _ | l3
    · rw [hru] at hr
      exact absurd hr (by simp)
    · rw [hru] at hr
      simp only at hr
      have h3 := (LexOk.ofRunUntil _ _ _ _ h1.toIgnore hru).toBackup
      rcases hpeek : l3.backup.peek with ⟨pc, l5⟩
      have h5 : LexOk l0 l5 := by
        have h6 := h3.toPeek
        rw [hpeek] at h6
        exact h6
      rw [hpeek] at hr
      simp only at hr
      split at hr
      · cases Option.some.inj hr
        exact h5.toErrorf
      · cases Option.some.inj hr
        exact ((h5.toEmit .literal).toNext).toIgnore
  case identifier =>
    rw [step_identifier] at hr
    rcases hru : runUntil (fun r => ¬ isAlphaNumeric r) (l.s.length + 2) l with _ | l1
    · rw [hru] at hr
      exact absurd hr (by simp)
    · rw [hru] at hr
      simp only at hr
      cases Option.some.inj hr
      exact ((LexOk.ofRunUntil _ _ _ _ h hru).toBackup).toEmit _

theorem runScan_lexOk (fuel : Nat) : ∀ (m : Mode) (l lf l0 : DynLex),
    LexOk l0 l → runScan fuel m l = some lf → LexOk l0 lf := by
  induction fuel with
  | zero => intro m l lf l0 h hr; exact absurd hr (by simp [runScan])
  | succ fuel ih =>
    intro m l lf l0 h hr
    rw [runScan_succ] at hr
    rcases hstep : step m l with _ | r
    · rw [hstep] at hr
      exact absurd hr (by simp)
    · rw [hstep] at hr
      have hinv := step_lexOk m h r hstep
      cases r with
      | stop l1 =>
        simp only at hr
        cases Option.some.inj hr
        exact hinv
      | cont m1 l1 => exact ih m1 l1 lf l0 hinv hr

/-- C9 (amended): every token the scanner emits carries as its text
exactly the slice of the original input ENDING at its recorded position:
`val = input[pos - len(val) : pos]`.  (The recorded position is the
scanner offset at emission time, one past the token's last rune, so the
text is NOT the substring starting at the recorded position.) -/
theorem claim9_token_text (input : List Char) (toks : List Token) (b : Bool)
    (h : scanTokens input = some (toks, b)) :
    ∀ t ∈ toks, t.val = sliceG input (t.pos - t.val.length) t.pos := by
  unfold scanTokens at h
  rcases hrun : runScan (4 * input.length + 16) .begin (initLex input) with _ | lf
  · rw [hrun] at h
    exact absurd h (by simp)
  · rw [hrun] at h
    simp only [Option.some.injEq, Prod.mk.injEq] at h
    have h0 : LexOk (initLex input) (initLex input) :=
      ⟨rfl, by simp [initLex], by simp [initLex]⟩
    have hok := runScan_lexOk _ _ _ _ _ h0 hrun
    intro t ht
    have hsp := hok.2.2 t (by rw [h.1]; exact ht)
    exact hsp

/-- Witness for the C9 amended theorem at the identifier token of
`*c` newline `AB` newline. -/
theorem claim9_token_text_witness :
    Token.val ⟨5, ['A', 'B'], .identifier⟩ =
      sliceG progSmall
        ((⟨5, ['A', 'B'], .identifier⟩ : Token).pos -
          (⟨5, ['A', 'B'], .identifier⟩ : Token).val.length)
        (⟨5, ['A', 'B'], .identifier⟩ : Token).pos :=
  claim9_token_text progSmall
    [⟨5, ['A', 'B'], .identifier⟩, ⟨6, ['\n'], .semi⟩, ⟨6, [], .eof⟩] false rfl
    ⟨5, ['A', 'B'], .identifier⟩ (by decide)

/-- C9 counterexample: scanning `*c` newline `AB` newline emits the
identifier token AB with recorded position 5 and text `AB`, but the
substring of the input STARTING at position 5 is the newline, not `AB` —
so token text is not "the substring located at the recorded position"
read as starting there. -/
theorem claim9_counterexample :
    scanTokens progSmall =
      some ([⟨5, ['A', 'B'], .identifier⟩, ⟨6, ['\n'], .semi⟩, ⟨6, [], .eof⟩], false) ∧
    sliceG progSmall 5 (5 + 2) ≠ ['A', 'B'] := ⟨rfl, by decide⟩

end Dynamo
